import Mathlib

/-!
# Verification of the data-gradients batch-adaptation + feature-extraction pipeline

Shallow embedding of the core of the `data-gradients` repository:

* `DatasetAdapter._get_images_extractor` / `_get_labels_extractor`
  (src/data_gradients/batch_processors/adapters/base.py),
* `DetectionAnalysisManager.__init__` argument validation
  (src/data_gradients/managers/detection_manager.py),
* `AnalysisManager.execute` / `post_process` (manager.py),
* `ImagesResolutions` and `GetClassDistribution` feature extractors,
* `SegmentationCountNumObjects` (feature_extractors/segmentation_extractors.py).

Python exceptions are modelled by an explicit error type, Python `dict`s by
insertion-ordered association lists, and the thread-pool fan-out by the
(serialised) multiset of `execute` invocations it submits.
-/

namespace DataGradients

/-- Python exception classes raised (or named) by the code under analysis.
`configurationError` and `extractionError` are the names used by the spec's
error taxonomy (§7); no class of that name exists in the source, they are
included only so that statements can say that the code does *not* raise them.
`imageExtractorError` / `labelsExtractorError` are the classes defined in
`batch_processors/adapters/base.py`. -/
inductive PyError where
  | notImplementedError (msg : String)
  | runtimeError (msg : String)
  | stopIteration
  | indexError
  | keyError
  | typeError
  | imageExtractorError
  | labelsExtractorError
  | configurationError (msg : String)
  | extractionError (msg : String)
  deriving DecidableEq, Repr

/-- Is the error one of the "extraction error" classes (the spec's
`ExtractionError` taxon, or the source's two extractor error classes)? -/
def PyError.isExtractionError : PyError → Bool
  | .extractionError _ => true
  | .imageExtractorError => true
  | .labelsExtractorError => true
  | _ => false

/-- Is the error the spec's `ConfigurationError`? -/
def PyError.isConfigurationError : PyError → Bool
  | .configurationError _ => true
  | _ => false

/-! ## Raw batches (the `SupportedData` of the adapter) -/

/-- A leaf object inside a raw batch: the array-like classes the adapter
tests with `isinstance` (`torch.Tensor`, `np.ndarray`, `PIL.Image.Image`),
or any other Python object, tagged with its type name. -/
inductive TLeaf where
  | torchTensor
  | npNdarray
  | pilImage
  | pyObject (tyName : String)
  deriving DecidableEq, Repr

/-- A raw batch coming from the user's dataloader: an arbitrary nesting of
tuples, lists and mappings over leaf objects (`SupportedData` in base.py). -/
inductive RawData where
  | leaf (l : TLeaf)
  | tup (xs : List RawData)
  | lst (xs : List RawData)
  | dic (kvs : List (String × RawData))

/-- `isinstance(x, (torch.Tensor, np.ndarray, PIL.Image.Image))`. -/
def RawData.isArrayLike : RawData → Bool
  | .leaf .torchTensor => true
  | .leaf .npNdarray => true
  | .leaf .pilImage => true
  | _ => false

/-- `isinstance(data, (Tuple, List))`. -/
def RawData.isSeq : RawData → Bool
  | .tup _ => true
  | .lst _ => true
  | _ => false

/-- The elements of a tuple/list raw batch. -/
def RawData.seqElems : RawData → List RawData
  | .tup xs => xs
  | .lst xs => xs
  | _ => []

/-- `isinstance(data, (Tuple, List, Mapping))`. -/
def RawData.isContainer : RawData → Bool
  | .tup _ => true
  | .lst _ => true
  | .dic _ => true
  | _ => false

/-- The name printed by `type(data)` in the error message (modelled as the
bare class name). -/
def RawData.typeName : RawData → String
  | .tup _ => "tuple"
  | .lst _ => "list"
  | .dic _ => "dict"
  | .leaf .torchTensor => "torch.Tensor"
  | .leaf .npNdarray => "numpy.ndarray"
  | .leaf .pilImage => "PIL.Image.Image"
  | .leaf (.pyObject t) => t

/-! ## The dataset adapter's extractor resolution -/

/-- What the run configuration stores for an images/labels extractor: either
a path string such as `"[0]"` (converted to a callable by
`DataConfig.get_images_extractor`) or a callable, identified by a tag. -/
inductive ExtractorRef where
  | strRef (s : String)
  | fnRef (tag : String)
  deriving DecidableEq, Repr

/-- Modelled from the spec: `DataConfig`
(data_gradients/config/data/data_config.py is not under src/).  Per §3 and
§4.1 it is the run-scoped memoisation slot holding the resolved
images/labels extractors; `get_images_extractor()` returns a callable built
from the stored value. -/
structure DataConfig where
  images_extractor : Option ExtractorRef
  labels_extractor : Option ExtractorRef
  deriving DecidableEq, Repr

/-- A registered dataset-shape detector (`BaseDatasetExtractor`): the images
side is *called* on the data (`dataset_extractor.images_extractor(data)`,
base.py line 96) while the labels side is stored as the bound method itself
(`dataset_extractor.labels_extractor`, line 123). -/
structure BaseDatasetExtractor where
  images_extractor : RawData → ExtractorRef
  labels_extractor : ExtractorRef

/-- Result of one resolution call: the (possibly updated) configuration, the
extractor that will be applied to the batch, and whether any resolution step
beyond the memoisation check ran (heuristic / detector / interactive). -/
abbrev ResolveResult := DataConfig × ExtractorRef × Bool

/-- The positional heuristic test (base.py lines 89-90 and 116-117):
`isinstance(data, (Tuple, List)) and len(data) == 2` and the element at
`idx` (0 for images, 1 for labels) is array-like. -/
def positionalMatch (idx : Nat) (data : RawData) : Bool :=
  data.isSeq && data.seqElems.length == 2 &&
    (data.seqElems.getD idx (.leaf (.pyObject "none"))).isArrayLike

/-- The `NotImplementedError` message of `_get_images_extractor`
(base.py lines 105-109). -/
def imagesNotImplementedMsg (data : RawData) : String :=
  "Got object " ++ data.typeName ++ " from Data Iterator which is not supported!\n" ++
  "Please implement a custom `images_extractor` for your dataset. " ++
  "You can find more detail about this in our documentation: https://github.com/Deci-AI/data-gradients"

/-- The `NotImplementedError` message of `_get_labels_extractor`
(base.py lines 132-136). -/
def labelsNotImplementedMsg (data : RawData) : String :=
  "Got object " ++ data.typeName ++ " from Data Iterator which is not supported!\n" ++
  "Please implement a custom `labels_extractor` for your dataset. " ++
  "You can find more detail about this in our documentation: https://github.com/Deci-AI/data-gradients"

/-- `DatasetAdapter._get_images_extractor` (base.py lines 84-109).
`find` models `AutoExtractor.find_extractor` over the predefined dataset
extractors; `askI` models the interactive `Question` answer (which, per
§4.1 step 4 of the spec, is memoised by `get_images_extractor(question=...)`
— that part of `DataConfig` is not under src/ and is modelled from the
spec). -/
def getImagesExtractor (cfg : DataConfig) (find : RawData → Option BaseDatasetExtractor)
    (askI : RawData → ExtractorRef) (data : RawData) : Except PyError ResolveResult :=
  match cfg.images_extractor with
  | some e => .ok (cfg, e, false)
  | none =>
    if positionalMatch 0 data then
      let e := ExtractorRef.strRef "[0]"
      .ok ({ cfg with images_extractor := some e }, e, true)
    else
      match find data with
      | some det =>
        let e := det.images_extractor data
        .ok ({ cfg with images_extractor := some e }, e, true)
      | none =>
        if data.isContainer then
          let e := askI data
          .ok ({ cfg with images_extractor := some e }, e, true)
        else
          .error (.notImplementedError (imagesNotImplementedMsg data))

/-- `DatasetAdapter._get_labels_extractor` (base.py lines 111-136); the
positional heuristic checks index 1 and memoises `"[1]"`. -/
def getLabelsExtractor (cfg : DataConfig) (find : RawData → Option BaseDatasetExtractor)
    (askL : RawData → ExtractorRef) (data : RawData) : Except PyError ResolveResult :=
  match cfg.labels_extractor with
  | some e => .ok (cfg, e, false)
  | none =>
    if positionalMatch 1 data then
      let e := ExtractorRef.strRef "[1]"
      .ok ({ cfg with labels_extractor := some e }, e, true)
    else
      match find data with
      | some det =>
        let e := det.labels_extractor
        .ok ({ cfg with labels_extractor := some e }, e, true)
      | none =>
        if data.isContainer then
          let e := askL data
          .ok ({ cfg with labels_extractor := some e }, e, true)
        else
          .error (.notImplementedError (labelsNotImplementedMsg data))

/-- Resolving the images extractor over a whole run: one call per raw batch,
threading the configuration, counting how many calls ran a step beyond the
memoisation check (`DatasetAdapter.extract` calls `_get_images_extractor`
once per batch). -/
def resolveImagesRun (find : RawData → Option BaseDatasetExtractor)
    (askI : RawData → ExtractorRef) :
    DataConfig → List RawData → Except PyError (DataConfig × Nat)
  | cfg, [] => .ok (cfg, 0)
  | cfg, d :: ds =>
    match getImagesExtractor cfg find askI d with
    | .error e => .error e
    | .ok (cfg', _, ran) =>
      match resolveImagesRun find askI cfg' ds with
      | .error e => .error e
      | .ok (cfgF, n) => .ok (cfgF, (if ran then 1 else 0) + n)

/-- Resolving the labels extractor over a whole run. -/
def resolveLabelsRun (find : RawData → Option BaseDatasetExtractor)
    (askL : RawData → ExtractorRef) :
    DataConfig → List RawData → Except PyError (DataConfig × Nat)
  | cfg, [] => .ok (cfg, 0)
  | cfg, d :: ds =>
    match getLabelsExtractor cfg find askL d with
    | .error e => .error e
    | .ok (cfg', _, ran) =>
      match resolveLabelsRun find askL cfg' ds with
      | .error e => .error e
      | .ok (cfgF, n) => .ok (cfgF, (if ran then 1 else 0) + n)

/-! ## The analysis orchestrator (`manager.py`) -/

/-- `debug_mode = True` (manager.py line 16, module level, as shipped). -/
def debug_mode : Bool := true

/-- The mutable state of `AnalysisManager` during `execute`, generic over the
raw batch type `α` and the extractor state type `σ`.  The extractors are
their accumulator states (`execute` is modelled as a state transformer);
`trainPulled`/`valPulled` count the `next(...)` calls made by `_get_batch`. -/
structure MState (α σ : Type) where
  trainRem : List α
  valRem : List α
  trainOnly : Bool
  trainExts : List σ
  valExts : List σ
  trainPulled : Nat
  valPulled : Nat
  deriving Repr

/-- Fan a processed batch out to the extractors (manager.py lines 81-99).
In debug mode each extractor's `execute` runs once, on the calling thread,
in registration order.  In thread-pool mode the source iterates over the
extractor list and, for *each* extractor, submits `execute` for *every*
extractor (`futures = [self._threads.submit(extractor.execute, batch_data)
for extractor in self._train_extractors]` inside
`for extractor in self._train_extractors:`), so each extractor receives
`len(exts)` invocations per batch; the submitted calls are modelled as run
to completion in serialised rounds. -/
def fanout {β σ : Type} (debug : Bool) (exec : σ → β → σ) (exts : List σ) (bd : β) : List σ :=
  if debug then
    exts.map (fun e => exec e bd)
  else
    (List.range exts.length).foldl (fun acc _ => acc.map (fun e => exec e bd)) exts

/-- One iteration of the `for train_batch in tqdm.trange(...)` loop of
`AnalysisManager.execute` (manager.py lines 75-103), at loop index `i`.
`pre` models `self._preprocessor.preprocess` inside `_get_batch`; pulling
from an exhausted train iterator propagates `StopIteration` (uncaught in the
source), while `StopIteration` from the val iterator is caught and flips
`_train_only`. -/
def execStep {α β σ : Type} (debug : Bool) (exec : σ → β → σ) (pre : α → β)
    (i : Nat) (s : MState α σ) : MState α σ × Option PyError :=
  if 3 < i ∧ debug then
    (s, none)
  else
    match s.trainRem with
    | [] => (s, some .stopIteration)
    | b :: rest =>
      let s1 : MState α σ :=
        { s with trainRem := rest, trainPulled := s.trainPulled + 1,
                 trainExts := fanout debug exec s.trainExts (pre b) }
      if s.trainOnly then
        (s1, none)
      else
        match s.valRem with
        | [] => ({ s1 with trainOnly := true }, none)
        | vb :: vrest =>
          ({ s1 with valRem := vrest, valPulled := s.valPulled + 1,
                     valExts := fanout debug exec s.valExts (pre vb) }, none)

/-- The loop of `AnalysisManager.execute` over the given loop indices; an
uncaught exception aborts the loop and is reported alongside the state at
the point it was raised. -/
def executeLoop {α β σ : Type} (debug : Bool) (exec : σ → β → σ) (pre : α → β) :
    List Nat → MState α σ → MState α σ × Option PyError
  | [], s => (s, none)
  | i :: rest, s =>
    match execStep debug exec pre i s with
    | (s', none) => executeLoop debug exec pre rest s'
    | (s', some e) => (s', some e)

/-- `AnalysisManager.execute` (manager.py lines 73-103): the loop runs over
`range(self._length_data)`. -/
def execute {α β σ : Type} (debug : Bool) (exec : σ → β → σ) (pre : α → β)
    (length_data : Nat) (s : MState α σ) : MState α σ × Option PyError :=
  executeLoop debug exec pre (List.range length_data) s

/-- Does loop iteration `i` process a batch (i.e. is it not skipped by the
`train_batch > 3 and debug_mode` guard)? -/
def activeIter (debug : Bool) (i : Nat) : Bool :=
  !(decide (3 < i) && debug)

/-- `AnalysisManager.post_process` (manager.py lines 105-117): zips val and
train extractors; the val extractor's `process` (aggregation onto the plot)
runs only when `_train_only` is false, the train extractor's always runs.
`agg` models `extractor.process`; the result records, per extractor pair,
the val aggregate (if produced) and the train aggregate. -/
def post_process {α σ γ : Type} (agg : σ → γ) (s : MState α σ) : List (Option γ × γ) :=
  (s.valExts.zip s.trainExts).map
    (fun p => ((if s.trainOnly then none else some (agg p.1)), agg p.2))

/-! ## Insertion-ordered dictionaries (Python `dict`) -/

/-- A Python `dict` as an insertion-ordered association list. -/
abbrev PyDict (κ ν : Type) : Type := List (κ × ν)

namespace PyDict

variable {κ ν : Type} [DecidableEq κ]

/-- `d.get(k)` / `k in d`. -/
def get? : PyDict κ ν → κ → Option ν
  | [], _ => none
  | (k, v) :: t, a => if k = a then some v else get? t a

/-- `d[k] = v`: updates the first occurrence in place (keeping its
position), otherwise appends — Python insertion-order semantics. -/
def set : PyDict κ ν → κ → ν → PyDict κ ν
  | [], a, v => [(a, v)]
  | (k, w) :: t, a, v => if k = a then (k, v) :: t else (k, w) :: set t a v

/-- `list(d.keys())`. -/
def keys (d : PyDict κ ν) : List κ := d.map Prod.fst

/-- `list(d.values())`. -/
def values (d : PyDict κ ν) : List ν := d.map Prod.snd

/-- Lookup with a default. -/
def getD (d : PyDict κ ν) (k : κ) (v₀ : ν) : ν := (d.get? k).getD v₀

/-- `d[k] += n` on counter dicts: `KeyError` when the key is absent. -/
def incr (d : PyDict κ Nat) (k : κ) (n : Nat) : Except PyError (PyDict κ Nat) :=
  match d.get? k with
  | none => .error .keyError
  | some v => .ok (d.set k (v + n))

/-- `dict.fromkeys(keys, v)`. -/
def fromKeys (ks : List κ) (v : ν) : PyDict κ ν := ks.map (fun k => (k, v))

end PyDict

/-- The two dataset splits. -/
inductive Split where
  | train
  | val
  deriving DecidableEq, Repr

/-- The `{"train": ..., "val": ...}` dictionaries the extractors keep. -/
structure SplitDict (ν : Type) where
  train : ν
  val : ν
  deriving DecidableEq, Repr

namespace SplitDict

/-- `h[split]`. -/
def get {ν : Type} (h : SplitDict ν) : Split → ν
  | .train => h.train
  | .val => h.val

/-- `h[split] = v`. -/
def set {ν : Type} (h : SplitDict ν) : Split → ν → SplitDict ν
  | .train, v => { h with train := v }
  | .val, v => { h with val := v }

/-- Apply `f` to the slice of one split. -/
def modify {ν : Type} (h : SplitDict ν) (sp : Split) (f : ν → ν) : SplitDict ν :=
  h.set sp (f (h.get sp))

end SplitDict

/-! ## `ImagesResolutions` (feature_extractors/common/image_resolutions.py) -/

/-- An image as seen by `ImagesResolutions.update`: only `image.shape` is
read (`image.shape[2]` and `image.shape[1]`). -/
structure PImage where
  shape0 : Nat
  shape1 : Nat
  shape2 : Nat
  deriving DecidableEq, Repr

/-- `str(tuple((image.shape[2], image.shape[1])))` (image_resolutions.py
line 15). -/
def resOf (im : PImage) : String := toString (im.shape2, im.shape1)

/-- A canonical batch as consumed by `ImagesResolutions.update`: its images
and its split tag. -/
structure ImBatch where
  images : List PImage
  split : Split
  deriving DecidableEq, Repr

/-- The `self._hist = {"train": dict(), "val": dict()}` state. -/
abbrev IRState := SplitDict (PyDict String Nat)

/-- `ImagesResolutions.update` (image_resolutions.py lines 13-19): for each
image, insert the resolution key with count 1 if absent, else increment. -/
def imagesResolutions_update (h : IRState) (data : ImBatch) : IRState :=
  data.images.foldl
    (fun acc im =>
      let res := resOf im
      acc.modify data.split
        (fun d => match d.get? res with
          | none => d.set res 1
          | some v => d.set res (v + 1)))
    h

/-- Append, with value 0, every key of `ks` that is missing from `d`. -/
def fillMissing (d : PyDict String Nat) (ks : List String) : PyDict String Nat :=
  ks.foldl (fun d k => if (d.get? k).isSome then d else d.set k 0) d

/-- Modelled from the spec: `FeatureExtractorAbstract.merge_dict_splits` is
not under src/.  Per §4.3, "split-specific key sets are unioned and missing
keys filled with zero before train/val comparison": every key of the other
split that is missing from a split's histogram is appended with value 0. -/
def merge_dict_splits (h : IRState) : IRState :=
  ⟨fillMissing h.train h.val.keys, fillMissing h.val h.train.keys⟩

/-- `ImagesResolutions.aggregate` (image_resolutions.py lines 37-41):
mutates the state through `merge_dict_splits`, then returns
`(list(values), list(keys))` of the requested split.  The post-call state is
returned alongside the output. -/
def imagesResolutions_aggregate (h : IRState) (split : Split) :
    (List Nat × List String) × IRState :=
  let h' := merge_dict_splits h
  ((((h'.get split)).values, ((h'.get split)).keys), h')

/-- `imagesResolutions_update` folded over a run's batch sequence. -/
def imagesResolutions_updateRun (h : IRState) (bs : List ImBatch) : IRState :=
  bs.foldl imagesResolutions_update h

/-- The `(split, resolution)` occurrences contributed by a batch sequence,
one per image, in processing order. -/
def resOccurrences (bs : List ImBatch) : List (Split × String) :=
  bs.flatMap (fun b => b.images.map (fun im => (b.split, resOf im)))

/-- Add `c` hits to an optional counter: the value a histogram lookup takes
after `c` further occurrences of its key. -/
def bumpBy (o : Option Nat) (c : Nat) : Option Nat :=
  match o with
  | some v => some (v + c)
  | none => if c = 0 then none else some c

/-! ## `GetClassDistribution`
(feature_extractors/segmentation/classes_distribution.py) -/

/-- A histogram key: initially the integer class ids; `aggregate` replaces
them by class-name strings. -/
inductive HKey where
  | id (n : Nat)
  | name (s : String)
  deriving DecidableEq, Repr

/-- One contour of a segmentation batch, as consumed by
`GetClassDistribution.update`: only `.class_id` is read. -/
structure Contour where
  class_id : Nat
  deriving DecidableEq, Repr

/-- A canonical segmentation batch as consumed by
`GetClassDistribution.update`: `data.contours` is, per image, a list of
per-class contour lists, plus the split tag. -/
structure SegBatch where
  contours : List (List (List Contour))
  split : Split
  deriving DecidableEq, Repr

/-- The state of `GetClassDistribution`: the per-split histogram, the
per-split total object count, and the shared class-id → class-name table
(`self.id_to_name`, inherited from `FeatureExtractorAbstract`, which is not
under src/ — modelled from the spec §4.3 as a read-only id → name lookup). -/
structure GCDState where
  hist : SplitDict (PyDict HKey Nat)
  total : SplitDict Nat
  id_to_name : Nat → Option String

/-- `GetClassDistribution.__init__` (classes_distribution.py lines 10-15):
`keys = [int(i) for i in range(0, n_classes + len(ignore_labels)) if i not
in ignore_labels]`, histograms `dict.fromkeys(keys, 0)` for both splits,
totals 0. -/
def gcd_init (n_classes : Nat) (ignore_labels : List Nat)
    (table : Nat → Option String) : GCDState :=
  let ks := ((List.range (n_classes + ignore_labels.length)).filter
    (fun i => ¬ ignore_labels.contains i)).map HKey.id
  { hist := ⟨PyDict.fromKeys ks 0, PyDict.fromKeys ks 0⟩
    total := ⟨0, 0⟩
    id_to_name := table }

/-- The `(class_id, count)` contributions of one batch, in the order
`update` applies them: for each image, for each non-empty per-class contour
list, `(cls_contours[0].class_id, len(cls_contours))`. -/
def contribsOf (data : SegBatch) : List (Nat × Nat) :=
  data.contours.flatMap
    (fun image_contours => image_contours.filterMap
      (fun cc => match cc with
        | [] => none
        | c :: _ => some (c.class_id, cc.length)))

/-- Apply one `(class_id, n)` contribution to the state for split `sp`:
`self._hist[split][class_id] += n` (`KeyError` when the id was never a
histogram key, exactly as in Python) and `self._total_objects[split] += n`. -/
def gcd_applyOne (sp : Split) (c : Nat × Nat) (s : GCDState) : Except PyError GCDState :=
  match (s.hist.get sp).incr (HKey.id c.1) c.2 with
  | .error e => .error e
  | .ok d => .ok { s with hist := s.hist.set sp d, total := s.total.modify sp (· + c.2) }

/-- The inner double loop of `GetClassDistribution.update`, applied to the
contribution list. -/
def gcd_applyContribs (sp : Split) : List (Nat × Nat) → GCDState → Except PyError GCDState
  | [], s => .ok s
  | c :: cs, s =>
    match gcd_applyOne sp c s with
    | .error e => .error e
    | .ok s' => gcd_applyContribs sp cs s'

/-- `GetClassDistribution.update` (classes_distribution.py lines 17-22). -/
def gcd_update (s : GCDState) (data : SegBatch) : Except PyError GCDState :=
  gcd_applyContribs data.split (contribsOf data) s

/-- `gcd_update` folded over a run's batch sequence. -/
def gcd_updateRun : GCDState → List SegBatch → Except PyError GCDState
  | s, [] => .ok s
  | s, b :: bs =>
    match gcd_update s b with
    | .error e => .error e
    | .ok s' => gcd_updateRun s' bs

/-- `gcd_applyOne` lifted to already-failed computations (an exception in
Python simply propagates past the remaining statements). -/
def applyOneE (sp : Split) (c : Nat × Nat) : Except PyError GCDState → Except PyError GCDState
  | .error e => .error e
  | .ok s => gcd_applyOne sp c s

/-- The full `(split, (class_id, count))` operation list of a run, batches
flattened in processing order. -/
def opsOf (bs : List SegBatch) : List (Split × (Nat × Nat)) :=
  bs.flatMap (fun b => (contribsOf b).map (fun c => (b.split, c)))

/-- Apply a list of `(split, contribution)` operations. -/
def applyOpsE (ops : List (Split × (Nat × Nat))) (es : Except PyError GCDState) :
    Except PyError GCDState :=
  ops.foldl (fun es oc => applyOneE oc.1 oc.2 es) es

/-- Modelled from the spec: `class_id_to_name` (data_gradients/utils/utils.py
is not under src/).  Per §4.3 the class-id → class-name resolution table
replaces each id key of the histogram by its class name; keys with no entry
in the table (and keys that already are names) are left unchanged. -/
def renameKey (table : Nat → Option String) : HKey → HKey
  | .id n => match table n with
    | some s => .name s
    | none => .id n
  | .name s => .name s

/-- Modelled from the spec: key-wise renaming of a histogram (see
`renameKey`). -/
def class_id_to_name (table : Nat → Option String) (d : PyDict HKey Nat) :
    PyDict HKey Nat :=
  d.map (fun kv => (renameKey table kv.1, kv.2))

/-- Modelled from the spec: `FeatureExtractorAbstract.normalize` is not
under src/.  Per §4.3, "histograms are normalized (divided by total count)
before plotting"; an empty split (total 0) yields zeros rather than
failing, per §4.3's empty-state requirement. -/
def normalize (xs : List Nat) (total : Nat) : List ℚ :=
  xs.map (fun v => (v : ℚ) / (total : ℚ))

/-- `GetClassDistribution.aggregate` (classes_distribution.py lines 41-45):
mutates `self._hist[split]` through `class_id_to_name`, then returns the
normalized values and the (renamed) keys; the post-call state is returned
alongside. -/
def gcd_aggregate (s : GCDState) (split : Split) :
    (List ℚ × List HKey) × GCDState :=
  let h' := class_id_to_name s.id_to_name (s.hist.get split)
  ((normalize h'.values (s.total.get split), h'.keys),
   { s with hist := s.hist.set split h' })

/-! ## `SegmentationCountNumObjects`
(feature_extractors/segmentation_extractors.py lines 11-22) -/

/-- `self._hist[i] += 1` on a Python list: `IndexError` when the index is
out of range (the list never grows). -/
def pyListIncr (l : List Nat) (i : Nat) : Except PyError (List Nat) :=
  if i < l.length then .ok (l.set i (l[i]! + 1)) else .error .indexError

/-- The per-image object count: `sum(len(cls_contours) for cls_contours in
onehot_contours)`. -/
def numObjects (onehot_contours : List (List Contour)) : Nat :=
  (onehot_contours.map List.length).sum

/-- `SegmentationCountNumObjects.__init__`: `self._hist = [0] * 51`. -/
def scno_init : List Nat := List.replicate 51 0

/-- `SegmentationCountNumObjects.execute` (segmentation_extractors.py lines
17-22): for each image, `self._hist[num_objects_per_image] += 1`. -/
def scno_execute : List Nat → List (List (List Contour)) → Except PyError (List Nat)
  | hist, [] => .ok hist
  | hist, oc :: rest =>
    match pyListIncr hist (numObjects oc) with
    | .error e => .error e
    | .ok hist' => scno_execute hist' rest

/-! ## `DetectionAnalysisManager.__init__` argument validation
(managers/detection_manager.py lines 63-86) -/

/-- Python truthiness of an optional integer (`None` and `0` are falsy). -/
def truthyNat : Option Nat → Bool
  | none => false
  | some n => n ≠ 0

/-- Python truthiness of an optional list (`None` and `[]` are falsy). -/
def truthyList {α : Type} : Option (List α) → Bool
  | none => false
  | some l => !l.isEmpty

/-- The `class_names_to_use` handling (detection_manager.py lines 81-86):
when truthy, every listed name must appear in `class_names`, else
`RuntimeError`; `class_names_to_use = class_names_to_use or class_names`. -/
def resolve_class_names_to_use (class_names : List String)
    (class_names_to_use : Option (List String)) :
    Except PyError (List String × List String) :=
  if truthyList class_names_to_use then
    let cn2u := class_names_to_use.getD []
    if cn2u.all (fun c => class_names.contains c) then
      .ok (class_names, cn2u)
    else
      .error (.runtimeError "You defined `class_names_to_use` with classes that are not listed in `class_names`")
  else
    .ok (class_names, class_names)

/-- The argument validation performed by `DetectionAnalysisManager.__init__`
(detection_manager.py lines 63-86), in source order, before the data
iterables are ever iterated (they are only stored, by
`AnalysisManagerAbstract.__init__`, and first pulled in `run`):
`feature_extractors`/`config_path` exclusivity, then the
`n_classes`/`class_names` checks (Python truthiness for the "both" check,
`is None` for the "neither" check), then the `class_names` default
`list(map(str, range(n_classes)))`, then `class_names_to_use`.  Returns the
resolved `(class_names, class_names_to_use)`. -/
def detectionManagerInit (feature_extractors config_path : Option String)
    (n_classes : Option Nat) (class_names : Option (List String))
    (class_names_to_use : Option (List String)) :
    Except PyError (List String × List String) :=
  if feature_extractors.isSome ∧ config_path.isSome then
    .error (.runtimeError "`feature_extractors` and `config_path` cannot be specified at the same time")
  else if truthyNat n_classes ∧ truthyList class_names then
    .error (.runtimeError "`class_names` and `n_classes` cannot be specified at the same time")
  else if n_classes = none ∧ class_names = none then
    .error (.runtimeError "Either `class_names` or `n_classes` must be specified")
  else
    match (if truthyList class_names then class_names else none), n_classes with
    | some cns, _ => resolve_class_names_to_use cns class_names_to_use
    | none, none => .error .typeError
    | none, some n => resolve_class_names_to_use ((List.range n).map toString) class_names_to_use

/-! # Theorems -/

/-- Memoisation branch of `_get_images_extractor`: a stored extractor is
returned as-is, with the configuration untouched and no further step run. -/
theorem getImagesExtractor_memo (cfg : DataConfig)
    (find : RawData → Option BaseDatasetExtractor) (askI : RawData → ExtractorRef)
    (d : RawData) (e : ExtractorRef) (h : cfg.images_extractor = some e) :
    getImagesExtractor cfg find askI d = .ok (cfg, e, false) := by
  unfold getImagesExtractor
  rw [h]

/-- Memoisation branch of `_get_labels_extractor`. -/
theorem getLabelsExtractor_memo (cfg : DataConfig)
    (find : RawData → Option BaseDatasetExtractor) (askL : RawData → ExtractorRef)
    (d : RawData) (e : ExtractorRef) (h : cfg.labels_extractor = some e) :
    getLabelsExtractor cfg find askL d = .ok (cfg, e, false) := by
  unfold getLabelsExtractor
  rw [h]

/-- Every successful images-extractor resolution leaves the resolved
extractor stored in the configuration. -/
theorem getImagesExtractor_ok_stored (cfg cfg' : DataConfig)
    (find : RawData → Option BaseDatasetExtractor) (askI : RawData → ExtractorRef)
    (d : RawData) (e : ExtractorRef) (ran : Bool)
    (h : getImagesExtractor cfg find askI d = .ok (cfg', e, ran)) :
    cfg'.images_extractor = some e := by
  rcases hm : cfg.images_extractor with _ | e₀
  · rcases hc : positionalMatch 0 d with _ | _
    · rcases hf : find d with _ | det
      · rcases hcont : d.isContainer with _ | _
        · simp [getImagesExtractor, hm, hc, hf, hcont] at h
        · simp [getImagesExtractor, hm, hc, hf, hcont] at h
          obtain ⟨h1, h2, _⟩ := h
          rw [← h1, ← h2]
      · simp [getImagesExtractor, hm, hc, hf] at h
        obtain ⟨h1, h2, _⟩ := h
        rw [← h1, ← h2]
    · simp [getImagesExtractor, hm, hc] at h
      obtain ⟨h1, h2, _⟩ := h
      rw [← h1, ← h2]
  · simp [getImagesExtractor, hm] at h
    obtain ⟨h1, h2, _⟩ := h
    rw [← h1, hm, h2]

/-- Every successful labels-extractor resolution leaves the resolved
extractor stored in the configuration. -/
theorem getLabelsExtractor_ok_stored (cfg cfg' : DataConfig)
    (find : RawData → Option BaseDatasetExtractor) (askL : RawData → ExtractorRef)
    (d : RawData) (e : ExtractorRef) (ran : Bool)
    (h : getLabelsExtractor cfg find askL d = .ok (cfg', e, ran)) :
    cfg'.labels_extractor = some e := by
  rcases hm : cfg.labels_extractor with _ | e₀
  · rcases hc : positionalMatch 1 d with _ | _
    · rcases hf : find d with _ | det
      · rcases hcont : d.isContainer with _ | _
        · simp [getLabelsExtractor, hm, hc, hf, hcont] at h
        · simp [getLabelsExtractor, hm, hc, hf, hcont] at h
          obtain ⟨h1, h2, _⟩ := h
          rw [← h1, ← h2]
      · simp [getLabelsExtractor, hm, hc, hf] at h
        obtain ⟨h1, h2, _⟩ := h
        rw [← h1, ← h2]
    · simp [getLabelsExtractor, hm, hc] at h
      obtain ⟨h1, h2, _⟩ := h
      rw [← h1, ← h2]
  · simp [getLabelsExtractor, hm] at h
    obtain ⟨h1, h2, _⟩ := h
    rw [← h1, hm, h2]

/-- A run starting from a resolved images extractor runs zero further
resolution steps and never changes the configuration. -/
theorem resolveImagesRun_resolved (find : RawData → Option BaseDatasetExtractor)
    (askI : RawData → ExtractorRef) (cfg : DataConfig) (e : ExtractorRef)
    (h : cfg.images_extractor = some e) :
    ∀ ds : List RawData, resolveImagesRun find askI cfg ds = .ok (cfg, 0) := by
  intro ds
  induction ds with
  | nil => rfl
  | cons d ds ih =>
    simp [resolveImagesRun, getImagesExtractor_memo cfg find askI d e h, ih]

/-- A run starting from a resolved labels extractor runs zero further
resolution steps and never changes the configuration. -/
theorem resolveLabelsRun_resolved (find : RawData → Option BaseDatasetExtractor)
    (askL : RawData → ExtractorRef) (cfg : DataConfig) (e : ExtractorRef)
    (h : cfg.labels_extractor = some e) :
    ∀ ds : List RawData, resolveLabelsRun find askL cfg ds = .ok (cfg, 0) := by
  intro ds
  induction ds with
  | nil => rfl
  | cons d ds ih =>
    simp [resolveLabelsRun, getLabelsExtractor_memo cfg find askL d e h, ih]

/-- C1: once the image (resp. label) extractor has been resolved and stored
in the run's data configuration, every subsequent resolution call — for any
raw batch, hence across train/val splits and arbitrarily many later batches
— returns the stored extractor with the configuration unchanged and with no
heuristic, pattern-matching or interactive step run (the `false` flag); and
over any whole run, resolution steps beyond the memoisation check execute at
most once per task. -/
theorem C1_resolution_memoised_once
    (find : RawData → Option BaseDatasetExtractor) (askI askL : RawData → ExtractorRef)
    (cfg : DataConfig) (ei el : ExtractorRef)
    (hi : cfg.images_extractor = some ei) (hl : cfg.labels_extractor = some el) :
    (∀ d : RawData,
        getImagesExtractor cfg find askI d = .ok (cfg, ei, false) ∧
        getLabelsExtractor cfg find askL d = .ok (cfg, el, false)) ∧
    (∀ (cfg₀ cfgF : DataConfig) (ds : List RawData) (n : Nat),
        (resolveImagesRun find askI cfg₀ ds = .ok (cfgF, n) → n ≤ 1) ∧
        (resolveLabelsRun find askL cfg₀ ds = .ok (cfgF, n) → n ≤ 1)) := by
  constructor
  · intro d
    exact ⟨getImagesExtractor_memo cfg find askI d ei hi,
           getLabelsExtractor_memo cfg find askL d el hl⟩
  · intro cfg₀ cfgF ds n
    constructor
    · intro hrun
      rcases ds with _ | ⟨d, ds⟩
      · simp [resolveImagesRun] at hrun
        omega
      · rw [resolveImagesRun] at hrun
        rcases hg : getImagesExtractor cfg₀ find askI d with e' | ⟨cfg₁, e₁, ran₁⟩
        · rw [hg] at hrun
          exact absurd hrun (by simp)
        · rw [hg] at hrun
          have hstored := getImagesExtractor_ok_stored cfg₀ cfg₁ find askI d e₁ ran₁ hg
          have hrec := resolveImagesRun_resolved find askI cfg₁ e₁ hstored ds
          simp only [hrec, Except.ok.injEq, Prod.mk.injEq] at hrun
          rcases hrun with ⟨_, hn⟩
          cases ran₁ <;> simp at hn <;> omega
    · intro hrun
      rcases ds with _ | ⟨d, ds⟩
      · simp [resolveLabelsRun] at hrun
        omega
      · rw [resolveLabelsRun] at hrun
        rcases hg : getLabelsExtractor cfg₀ find askL d with e' | ⟨cfg₁, e₁, ran₁⟩
        · rw [hg] at hrun
          exact absurd hrun (by simp)
        · rw [hg] at hrun
          have hstored := getLabelsExtractor_ok_stored cfg₀ cfg₁ find askL d e₁ ran₁ hg
          have hrec := resolveLabelsRun_resolved find askL cfg₁ e₁ hstored ds
          simp only [hrec, Except.ok.injEq, Prod.mk.injEq] at hrun
          rcases hrun with ⟨_, hn⟩
          cases ran₁ <;> simp at hn <;> omega

/-- Witness for C1 at a concrete resolved configuration and a concrete
three-batch run. -/
theorem C1_resolution_memoised_once_witness :
    getImagesExtractor ⟨some (.strRef "[0]"), some (.strRef "[1]")⟩ (fun _ => none)
        (fun _ => .fnRef "q") (.leaf .torchTensor)
      = .ok (⟨some (.strRef "[0]"), some (.strRef "[1]")⟩, .strRef "[0]", false) ∧
    (resolveImagesRun (fun _ => none) (fun _ => .fnRef "q") ⟨none, none⟩
        [.tup [.leaf .torchTensor, .leaf .npNdarray], .tup [.leaf .torchTensor, .leaf .npNdarray]]
      = .ok (⟨some (.strRef "[0]"), none⟩, 1) → (1 : Nat) ≤ 1) := by
  constructor
  · exact (C1_resolution_memoised_once (fun _ => none) (fun _ => .fnRef "q") (fun _ => .fnRef "q")
      ⟨some (.strRef "[0]"), some (.strRef "[1]")⟩ (.strRef "[0]") (.strRef "[1]") rfl rfl).1
      (.leaf .torchTensor) |>.1
  · exact (C1_resolution_memoised_once (fun _ => none) (fun _ => .fnRef "q") (fun _ => .fnRef "q")
      ⟨some (.strRef "[0]"), some (.strRef "[1]")⟩ (.strRef "[0]") (.strRef "[1]") rfl rfl).2
      ⟨none, none⟩ ⟨some (.strRef "[0]"), none⟩
      [.tup [.leaf .torchTensor, .leaf .npNdarray], .tup [.leaf .torchTensor, .leaf .npNdarray]] 1 |>.1

/-- C2: on a 2-element tuple/list raw batch whose element at the
conventional index is array-like, an unresolved run selects the positional
extractor (`"[0]"` for images, `"[1]"` for labels), memoises it in the
configuration, and the outcome is the same whatever the registered
dataset-shape detectors or the interactive answer would say (they are never
consulted: the result does not depend on `find`/`ask`). -/
theorem C2_positional_heuristic
    (cfg : DataConfig) (d : RawData)
    (hseq : d.isSeq = true) (hlen : d.seqElems.length = 2) :
    (∀ (find : RawData → Option BaseDatasetExtractor) (askI : RawData → ExtractorRef),
      cfg.images_extractor = none →
      (d.seqElems.getD 0 (.leaf (.pyObject "none"))).isArrayLike = true →
      getImagesExtractor cfg find askI d =
        .ok ({ cfg with images_extractor := some (.strRef "[0]") }, .strRef "[0]", true)) ∧
    (∀ (find : RawData → Option BaseDatasetExtractor) (askL : RawData → ExtractorRef),
      cfg.labels_extractor = none →
      (d.seqElems.getD 1 (.leaf (.pyObject "none"))).isArrayLike = true →
      getLabelsExtractor cfg find askL d =
        .ok ({ cfg with labels_extractor := some (.strRef "[1]") }, .strRef "[1]", true)) := by
  constructor
  · intro find askI hnone harr
    have hc : positionalMatch 0 d = true := by
      unfold positionalMatch
      rw [hseq, hlen, harr]
      decide
    simp [getImagesExtractor, hnone, hc]
  · intro find askL hnone harr
    have hc : positionalMatch 1 d = true := by
      unfold positionalMatch
      rw [hseq, hlen, harr]
      decide
    simp [getLabelsExtractor, hnone, hc]

/-- Witness for C2 at the concrete batch `(tensor, ndarray)`. -/
theorem C2_positional_heuristic_witness :
    getImagesExtractor ⟨none, none⟩ (fun _ => none) (fun _ => .fnRef "q")
        (.tup [.leaf .torchTensor, .leaf .npNdarray])
      = .ok (⟨some (.strRef "[0]"), none⟩, .strRef "[0]", true) ∧
    getLabelsExtractor ⟨none, none⟩ (fun _ => none) (fun _ => .fnRef "q")
        (.tup [.leaf .torchTensor, .leaf .npNdarray])
      = .ok (⟨none, some (.strRef "[1]")⟩, .strRef "[1]", true) := by
  constructor
  · exact (C2_positional_heuristic ⟨none, none⟩ (.tup [.leaf .torchTensor, .leaf .npNdarray])
      rfl rfl).1 (fun _ => none) (fun _ => .fnRef "q") rfl rfl
  · exact (C2_positional_heuristic ⟨none, none⟩ (.tup [.leaf .torchTensor, .leaf .npNdarray])
      rfl rfl).2 (fun _ => none) (fun _ => .fnRef "q") rfl rfl

/-- C3 counterexample: on a raw batch that is no container (a bare `int`),
with no prior resolution and no detector match, the adapter raises
`NotImplementedError` — not the `ExtractionError` class the claim names
(nor the `ImageExtractorError`/`LabelsExtractorError` classes defined in
base.py, which this code path never raises). -/
theorem C3_error_type_counterexample :
    getImagesExtractor ⟨none, none⟩ (fun _ => none) (fun _ => .fnRef "q")
        (.leaf (.pyObject "int"))
      = .error (.notImplementedError (imagesNotImplementedMsg (.leaf (.pyObject "int")))) ∧
    (PyError.notImplementedError
        (imagesNotImplementedMsg (.leaf (.pyObject "int")))).isExtractionError = false := by
  constructor
  · rfl
  · rfl

/-- C3 (amended): for every raw batch that is not a tuple, list or mapping,
with no prior resolution and no dataset-shape detector match, extractor
resolution fails by raising `NotImplementedError` whose message names the
observed type of the batch and instructs the caller to implement a custom
`images_extractor` (resp. `labels_extractor`) — thereby naming the task. -/
theorem C3_not_supported_raises_notimplemented
    (cfg : DataConfig) (find : RawData → Option BaseDatasetExtractor)
    (askI askL : RawData → ExtractorRef) (d : RawData)
    (hcont : d.isContainer = false) (hf : find d = none) :
    (cfg.images_extractor = none →
      getImagesExtractor cfg find askI d =
        .error (.notImplementedError (imagesNotImplementedMsg d))) ∧
    (cfg.labels_extractor = none →
      getLabelsExtractor cfg find askL d =
        .error (.notImplementedError (labelsNotImplementedMsg d))) := by
  have hseq : d.isSeq = false := by
    cases d <;> simp_all [RawData.isSeq, RawData.isContainer]
  have hc0 : positionalMatch 0 d = false := by simp [positionalMatch, hseq]
  have hc1 : positionalMatch 1 d = false := by simp [positionalMatch, hseq]
  constructor
  · intro hnone
    simp [getImagesExtractor, hnone, hc0, hf, hcont]
  · intro hnone
    simp [getLabelsExtractor, hnone, hc1, hf, hcont]

/-- Witness for the amended C3 at the concrete non-container batch. -/
theorem C3_not_supported_raises_notimplemented_witness :
    getImagesExtractor ⟨none, none⟩ (fun _ => none) (fun _ => .fnRef "q")
        (.leaf (.pyObject "int"))
      = .error (.notImplementedError (imagesNotImplementedMsg (.leaf (.pyObject "int")))) ∧
    getLabelsExtractor ⟨none, none⟩ (fun _ => none) (fun _ => .fnRef "q")
        (.leaf (.pyObject "int"))
      = .error (.notImplementedError (labelsNotImplementedMsg (.leaf (.pyObject "int")))) := by
  constructor
  · exact (C3_not_supported_raises_notimplemented ⟨none, none⟩ (fun _ => none)
      (fun _ => .fnRef "q") (fun _ => .fnRef "q") (.leaf (.pyObject "int")) rfl rfl).1 rfl
  · exact (C3_not_supported_raises_notimplemented ⟨none, none⟩ (fun _ => none)
      (fun _ => .fnRef "q") (fun _ => .fnRef "q") (.leaf (.pyObject "int")) rfl rfl).2 rfl

/-- C5 counterexample: supplying both `n_classes = 2` and
`class_names = ["a", "b"]` raises `RuntimeError`, not the
`ConfigurationError` the claim names (no such class exists in the code). -/
theorem C5_error_type_counterexample :
    detectionManagerInit none none (some 2) (some ["a", "b"]) none
      = .error (.runtimeError "`class_names` and `n_classes` cannot be specified at the same time") ∧
    (PyError.runtimeError "`class_names` and `n_classes` cannot be specified at the same time").isConfigurationError
      = false := by
  constructor <;> rfl

/-- C5 (amended): supplying both `n_classes` and `class_names` (as truthy
values: a non-zero count and a non-empty list) or supplying neither raises
`RuntimeError` during construction — the validation consumes no data, the
iterables are only stored and first pulled in `run` — and when exactly one
is supplied construction proceeds, `class_names` defaulting to
`str(0), ..., str(n_classes - 1)` when only `n_classes` is given. -/
theorem C5_nclasses_classnames_validation :
    (∀ (n : Nat) (cn : List String) (cntu : Option (List String)),
        n ≠ 0 → cn ≠ [] →
        detectionManagerInit none none (some n) (some cn) cntu
          = .error (.runtimeError "`class_names` and `n_classes` cannot be specified at the same time")) ∧
    (∀ cntu : Option (List String),
        detectionManagerInit none none none none cntu
          = .error (.runtimeError "Either `class_names` or `n_classes` must be specified")) ∧
    (∀ n : Nat,
        detectionManagerInit none none (some n) none none
          = .ok ((List.range n).map toString, (List.range n).map toString)) ∧
    (∀ cn : List String, cn ≠ [] →
        detectionManagerInit none none none (some cn) none = .ok (cn, cn)) := by
  refine ⟨?_, ?_, ?_, ?_⟩
  · intro n cn cntu hn hcn
    have h1 : truthyNat (some n) = true := by simp [truthyNat, hn]
    have h2 : truthyList (some cn) = true := by simp [truthyList, hcn]
    simp [detectionManagerInit, h1, h2]
  · intro cntu
    simp [detectionManagerInit, truthyNat, truthyList]
  · intro n
    simp [detectionManagerInit, truthyNat, truthyList, resolve_class_names_to_use]
  · intro cn hcn
    have h2 : truthyList (some cn) = true := by simp [truthyList, hcn]
    have h3 : truthyList (none : Option (List String)) = false := rfl
    simp [detectionManagerInit, truthyNat, h2, h3, resolve_class_names_to_use]

/-- Witness for the amended C5 at concrete arguments, one per case. -/
theorem C5_nclasses_classnames_validation_witness :
    detectionManagerInit none none (some 2) (some ["a", "b"]) none
      = .error (.runtimeError "`class_names` and `n_classes` cannot be specified at the same time") ∧
    detectionManagerInit none none none none none
      = .error (.runtimeError "Either `class_names` or `n_classes` must be specified") ∧
    detectionManagerInit none none (some 3) none none = .ok (["0", "1", "2"], ["0", "1", "2"]) ∧
    detectionManagerInit none none none (some ["car"]) none = .ok (["car"], ["car"]) := by
  refine ⟨C5_nclasses_classnames_validation.1 2 ["a", "b"] none (by decide) (by decide),
          C5_nclasses_classnames_validation.2.1 none, ?_,
          C5_nclasses_classnames_validation.2.2.2 ["car"] (by decide)⟩
  have h := C5_nclasses_classnames_validation.2.2.1 3
  simpa using h

/-- C8 (code bug): with two registered extractors and one train batch, the
thread-pool mode of `AnalysisManager.execute` (manager.py lines 81-86: the
list comprehension over all extractors sits inside a loop over all
extractors) invokes each extractor's `execute` twice for the batch, while
sequential/debug mode invokes it exactly once, so the accumulated states —
here simple invocation counters — differ between the two modes. -/
theorem C8_parallel_mode_double_execution :
    (execute false (fun (n : Nat) (_ : Unit) => n + 1) (fun (_ : Unit) => ()) 1
        ⟨[()], [], true, [0, 0], [], 0, 0⟩).1.trainExts = [2, 2] ∧
    (execute true (fun (n : Nat) (_ : Unit) => n + 1) (fun (_ : Unit) => ()) 1
        ⟨[()], [], true, [0, 0], [], 0, 0⟩).1.trainExts = [1, 1] ∧
    ([2, 2] : List Nat) ≠ [1, 1] := by
  refine ⟨rfl, rfl, by decide⟩

/-- `countP (i ≤ 3)` over `range n` is at most 4. -/
theorem countP_range_le_four (n : Nat) :
    (List.range n).countP (fun i => decide (i ≤ 3)) ≤ 4 := by
  induction n with
  | zero => simp
  | succ n ih =>
    rw [List.range_succ, List.countP_append]
    by_cases h : n ≤ 3
    · have hr : (List.range n).countP (fun i => decide (i ≤ 3)) ≤ n :=
        le_trans (List.countP_le_length _) (by simp)
      simp only [List.countP_cons, List.countP_nil]
      simp [h]
      omega
    · simp only [List.countP_cons, List.countP_nil]
      simp [h]
      omega

/-- One loop iteration pulls at most one train batch and one val batch. -/
theorem execStep_pulls_le {α β σ : Type} (debug : Bool) (exec : σ → β → σ) (pre : α → β)
    (i : Nat) (s : MState α σ) :
    (execStep debug exec pre i s).1.trainPulled ≤ s.trainPulled + 1 ∧
    (execStep debug exec pre i s).1.valPulled ≤ s.valPulled + 1 := by
  unfold execStep
  split
  · simp
  · split
    · simp
    · dsimp only
      split
      · simp
      · split
        · simp
        · simp

/-- A skipped iteration (`train_batch > 3 and debug_mode`) leaves the whole
state untouched: no pull, no extractor update. -/
theorem execStep_skip {α β σ : Type} (debug : Bool) (exec : σ → β → σ) (pre : α → β)
    (i : Nat) (s : MState α σ) (hi : 3 < i) (hd : debug = true) :
    execStep debug exec pre i s = (s, none) := by
  unfold execStep
  rw [if_pos ⟨hi, hd⟩]

/-- In debug mode the loop pulls at most `countP (i ≤ 3)` train batches and
at most that many val batches beyond the initial counters. -/
theorem executeLoop_pulls_le {α β σ : Type} (exec : σ → β → σ) (pre : α → β)
    (idxs : List Nat) (s : MState α σ) :
    (executeLoop true exec pre idxs s).1.trainPulled
      ≤ s.trainPulled + idxs.countP (fun i => decide (i ≤ 3)) ∧
    (executeLoop true exec pre idxs s).1.valPulled
      ≤ s.valPulled + idxs.countP (fun i => decide (i ≤ 3)) := by
  induction idxs generalizing s with
  | nil => simp [executeLoop]
  | cons i idxs ih =>
    rw [executeLoop]
    by_cases hi : 3 < i
    · rw [execStep_skip true exec pre i s hi rfl]
      have := ih s
      have hcount : (i :: idxs).countP (fun i => decide (i ≤ 3))
          = idxs.countP (fun i => decide (i ≤ 3)) := by
        simp [List.countP_cons]
        omega
      rw [hcount]
      exact this
    · have hstep := execStep_pulls_le true exec pre i s
      have hcount : (i :: idxs).countP (fun i => decide (i ≤ 3))
          = idxs.countP (fun i => decide (i ≤ 3)) + 1 := by
        simp [List.countP_cons]
        omega
      rcases hs : execStep true exec pre i s with ⟨s', e⟩
      rw [hs] at hstep
      dsimp only at hstep
      rcases e with _ | e
      · dsimp only
        have hrec := ih s'
        rw [hcount]
        exact ⟨by have := hstep.1; have := hrec.1; omega,
               by have := hstep.2; have := hrec.2; omega⟩
      · dsimp only
        rw [hcount]
        exact ⟨by have := hstep.1; omega, by have := hstep.2; omega⟩

/-- C9: with the shipped `debug_mode = True`, every loop iteration with
train-batch index above 3 is skipped entirely (state unchanged: no batch
pulled, no extractor updated), and over any run length at most 4 train and
at most 4 val batches are ever pulled. -/
theorem C9_debug_mode_caps_run_at_four_batches :
    debug_mode = true ∧
    (∀ (α β σ : Type) (exec : σ → β → σ) (pre : α → β) (i : Nat) (s : MState α σ),
        3 < i → execStep debug_mode exec pre i s = (s, none)) ∧
    (∀ (α β σ : Type) (exec : σ → β → σ) (pre : α → β) (len : Nat) (s : MState α σ),
        (execute debug_mode exec pre len s).1.trainPulled ≤ s.trainPulled + 4 ∧
        (execute debug_mode exec pre len s).1.valPulled ≤ s.valPulled + 4) := by
  refine ⟨rfl, ?_, ?_⟩
  · intro α β σ exec pre i s hi
    exact execStep_skip debug_mode exec pre i s hi rfl
  · intro α β σ exec pre len s
    have h := executeLoop_pulls_le exec pre (List.range len) s
    have hc := countP_range_le_four len
    simp only [execute, debug_mode]
    exact ⟨by have := h.1; omega, by have := h.2; omega⟩

/-- Witness for C9 at loop index 5 and a concrete state. -/
theorem C9_debug_mode_caps_run_at_four_batches_witness :
    execStep debug_mode (fun (n : Nat) (_ : Nat) => n + 1) (fun (x : Nat) => x) 5
        ⟨[7], [8], false, [0], [0], 0, 0⟩
      = (⟨[7], [8], false, [0], [0], 0, 0⟩, none) :=
  C9_debug_mode_caps_run_at_four_batches.2.1 Nat Nat Nat
    (fun n _ => n + 1) (fun x => x) 5 ⟨[7], [8], false, [0], [0], 0, 0⟩ (by decide)

/-- `pyListIncr` keeps the list length. -/
theorem pyListIncr_length (l l' : List Nat) (i : Nat) (h : pyListIncr l i = .ok l') :
    l'.length = l.length := by
  unfold pyListIncr at h
  split at h
  · simp only [Except.ok.injEq] at h
    rw [← h, List.length_set]
  · exact absurd h (by simp)

/-- On a 51-slot histogram, `execute` succeeds when every image has at most
50 objects. -/
theorem scno_execute_ok (hist : List Nat) (batch : List (List (List Contour)))
    (hlen : hist.length = 51) (h : ∀ oc ∈ batch, numObjects oc ≤ 50) :
    ∃ h', scno_execute hist batch = .ok h' ∧ h'.length = 51 := by
  induction batch generalizing hist with
  | nil => exact ⟨hist, rfl, hlen⟩
  | cons oc rest ih =>
    have hoc : numObjects oc ≤ 50 := h oc (by simp)
    have hlt : numObjects oc < hist.length := by omega
    rw [scno_execute]
    rw [pyListIncr, if_pos hlt]
    exact ih (hist.set (numObjects oc) (hist[numObjects oc]! + 1))
      (by rw [List.length_set]; exact hlen)
      (fun oc' hm => h oc' (by simp [hm]))

/-- On a 51-slot histogram, `execute` raises `IndexError` when some image
has more than 50 objects. -/
theorem scno_execute_overflow (hist : List Nat) (batch : List (List (List Contour)))
    (hlen : hist.length = 51) (h : ∃ oc ∈ batch, 50 < numObjects oc) :
    scno_execute hist batch = .error .indexError := by
  induction batch generalizing hist with
  | nil => simp at h
  | cons oc rest ih =>
    by_cases hoc : 50 < numObjects oc
    · rw [scno_execute]
      rw [pyListIncr, if_neg (by omega)]
    · have hlt : numObjects oc < hist.length := by omega
      rw [scno_execute, pyListIncr, if_pos hlt]
      refine ih (hist.set (numObjects oc) (hist[numObjects oc]! + 1))
        (by rw [List.length_set]; exact hlen) ?_
      rcases h with ⟨oc', hm, hgt⟩
      rcases List.mem_cons.mp hm with heq | hm'
      · rw [heq] at hgt
        omega
      · exact ⟨oc', hm', hgt⟩

/-- C10: `SegmentationCountNumObjects.execute` on its fixed 51-slot
histogram raises `IndexError` as soon as some image of the batch contains
more than 50 contour objects in total, and succeeds when every image has at
most 50. -/
theorem C10_num_objects_histogram_overflow (batch : List (List (List Contour))) :
    ((∀ oc ∈ batch, numObjects oc ≤ 50) → ∃ h', scno_execute scno_init batch = .ok h') ∧
    ((∃ oc ∈ batch, 50 < numObjects oc) →
        scno_execute scno_init batch = .error .indexError) := by
  constructor
  · intro h
    obtain ⟨h', hok, _⟩ := scno_execute_ok scno_init batch (by decide) h
    exact ⟨h', hok⟩
  · intro h
    exact scno_execute_overflow scno_init batch (by decide) h

/-- Witness for C10: a 50-object image succeeds, a 51-object image raises
`IndexError`. -/
theorem C10_num_objects_histogram_overflow_witness :
    (∃ h', scno_execute scno_init [List.replicate 50 [⟨0⟩]] = .ok h') ∧
    scno_execute scno_init [List.replicate 51 [⟨0⟩]] = .error .indexError :=
  ⟨(C10_num_objects_histogram_overflow [List.replicate 50 [⟨0⟩]]).1 (by decide),
   (C10_num_objects_histogram_overflow [List.replicate 51 [⟨0⟩]]).2 (by decide)⟩

/-- `activeIter` unfolded to a proposition. -/
theorem activeIter_iff (d : Bool) (i : Nat) :
    activeIter d i = true ↔ ¬(3 < i ∧ d = true) := by
  unfold activeIter
  rcases d with _ | _ <;> by_cases h : 3 < i <;> simp [h]

/-- Once `_train_only` holds, a loop supplied with enough train batches
finishes without exception, never touches val state, and pulls exactly one
train batch per active iteration. -/
theorem executeLoop_trainOnly {α β σ : Type} (d : Bool) (exec : σ → β → σ) (pre : α → β)
    (idxs : List Nat) (s : MState α σ)
    (hto : s.trainOnly = true)
    (hsup : idxs.countP (activeIter d) ≤ s.trainRem.length) :
    (executeLoop d exec pre idxs s).2 = none ∧
    (executeLoop d exec pre idxs s).1.trainOnly = true ∧
    (executeLoop d exec pre idxs s).1.valPulled = s.valPulled ∧
    (executeLoop d exec pre idxs s).1.valRem = s.valRem ∧
    (executeLoop d exec pre idxs s).1.trainPulled
      = s.trainPulled + idxs.countP (activeIter d) ∧
    (executeLoop d exec pre idxs s).1.trainRem.length
      = s.trainRem.length - idxs.countP (activeIter d) := by
  induction idxs generalizing s with
  | nil => simp [executeLoop, hto]
  | cons i idxs ih =>
    rw [executeLoop]
    have hcnt : (i :: idxs).countP (activeIter d)
        = idxs.countP (activeIter d) + (if activeIter d i then 1 else 0) := by
      rw [List.countP_cons]
    by_cases hact : activeIter d i = true
    · -- processed iteration
      have hcond : ¬(3 < i ∧ d = true) := (activeIter_iff d i).mp hact
      rcases htr : s.trainRem with _ | ⟨b, rest⟩
      · rw [hcnt, hact] at hsup
        rw [htr] at hsup
        simp at hsup
      · have hlen : rest.length + 1 = s.trainRem.length := by rw [htr]; rfl
        rw [hcnt, hact] at hsup
        simp only [if_pos] at hsup
        have hstep : execStep d exec pre i s =
            ({ s with trainRem := rest, trainPulled := s.trainPulled + 1,
                      trainExts := fanout d exec s.trainExts (pre b) }, none) := by
          unfold execStep
          rw [if_neg hcond, htr]
          dsimp only
          rw [hto]
          simp
        rw [hstep]
        have hrec := ih { s with trainRem := rest, trainPulled := s.trainPulled + 1,
                                 trainExts := fanout d exec s.trainExts (pre b) }
          hto (by dsimp only; omega)
        dsimp only at hrec ⊢
        rw [hcnt, hact]
        refine ⟨hrec.1, hrec.2.1, hrec.2.2.1, hrec.2.2.2.1, ?_, ?_⟩
        · rw [hrec.2.2.2.2.1]
          simp <;> omega
        · rw [hrec.2.2.2.2.2]
          simp <;> omega
    · -- skipped iteration
      have hskip_cond : 3 < i ∧ d = true := by
        rcases Decidable.em (3 < i ∧ d = true) with h | h
        · exact h
        · exact absurd ((activeIter_iff d i).mpr h) hact
      rw [execStep_skip d exec pre i s hskip_cond.1 hskip_cond.2]
      have hcnt0 : (i :: idxs).countP (activeIter d) = idxs.countP (activeIter d) := by
        rw [hcnt]
        simp [hact]
      rw [hcnt0] at hsup ⊢
      exact ih s hto hsup

/-- While `_train_only` is false, a loop supplied with enough train batches
finishes without exception, pulls one train batch per active iteration, and
pulls val batches until the val iterator is exhausted — after which
`_train_only` flips and no further val pull is attempted. -/
theorem executeLoop_val_exhaustion {α β σ : Type} (d : Bool) (exec : σ → β → σ) (pre : α → β)
    (idxs : List Nat) (s : MState α σ)
    (hto : s.trainOnly = false)
    (hsup : idxs.countP (activeIter d) ≤ s.trainRem.length) :
    (executeLoop d exec pre idxs s).2 = none ∧
    ((executeLoop d exec pre idxs s).1.trainOnly = true ↔
        s.valRem.length < idxs.countP (activeIter d)) ∧
    (executeLoop d exec pre idxs s).1.trainPulled
      = s.trainPulled + idxs.countP (activeIter d) ∧
    (executeLoop d exec pre idxs s).1.valPulled
      = s.valPulled + min (idxs.countP (activeIter d)) s.valRem.length ∧
    (executeLoop d exec pre idxs s).1.trainRem.length
      = s.trainRem.length - idxs.countP (activeIter d) := by
  induction idxs generalizing s with
  | nil =>
    simp [executeLoop, hto]
  | cons i idxs ih =>
    rw [executeLoop]
    have hcnt : (i :: idxs).countP (activeIter d)
        = idxs.countP (activeIter d) + (if activeIter d i then 1 else 0) := by
      rw [List.countP_cons]
    by_cases hact : activeIter d i = true
    · have hcond : ¬(3 < i ∧ d = true) := (activeIter_iff d i).mp hact
      rcases htr : s.trainRem with _ | ⟨b, rest⟩
      · rw [hcnt, hact] at hsup
        rw [htr] at hsup
        simp at hsup
      · have hlen : rest.length + 1 = s.trainRem.length := by rw [htr]; rfl
        rw [hcnt, hact] at hsup
        simp only [if_pos] at hsup
        rcases hvr : s.valRem with _ | ⟨vb, vrest⟩
        · -- val exhausted at this iteration: train_only flips
          have hstep : execStep d exec pre i s =
              ({ s with trainRem := rest, trainPulled := s.trainPulled + 1,
                        trainExts := fanout d exec s.trainExts (pre b),
                        trainOnly := true }, none) := by
            unfold execStep
            rw [if_neg hcond, htr]
            dsimp only
            rw [hto, hvr]
            simp
          rw [hstep]
          have hrec := executeLoop_trainOnly d exec pre idxs
            { s with trainRem := rest, trainPulled := s.trainPulled + 1,
                     trainExts := fanout d exec s.trainExts (pre b), trainOnly := true }
            rfl (by dsimp only; omega)
          rw [hvr] at hrec
          dsimp only at hrec ⊢
          rw [hcnt, hact, hvr]
          refine ⟨hrec.1, ?_, ?_, ?_, ?_⟩
          · rw [hrec.2.1]
            simp <;> omega
          · rw [hrec.2.2.2.2.1]
            simp <;> omega
          · rw [hrec.2.2.1]
            simp <;> omega
          · rw [hrec.2.2.2.2.2]
            simp <;> omega
        · -- val batch available: pull it, train_only stays false
          have hstep : execStep d exec pre i s =
              ({ s with trainRem := rest, trainPulled := s.trainPulled + 1,
                        trainExts := fanout d exec s.trainExts (pre b),
                        valRem := vrest, valPulled := s.valPulled + 1,
                        valExts := fanout d exec s.valExts (pre vb) }, none) := by
            unfold execStep
            rw [if_neg hcond, htr]
            dsimp only
            rw [hto, hvr]
            simp
          rw [hstep]
          have hrec := ih
            { s with trainRem := rest, trainPulled := s.trainPulled + 1,
                     trainExts := fanout d exec s.trainExts (pre b),
                     valRem := vrest, valPulled := s.valPulled + 1,
                     valExts := fanout d exec s.valExts (pre vb) }
            hto (by dsimp only; omega)
          dsimp only at hrec ⊢
          rw [hcnt, hact]
          refine ⟨hrec.1, ?_, ?_, ?_, ?_⟩
          · rw [hrec.2.1]
            simp <;> omega
          · rw [hrec.2.2.1]
            simp <;> omega
          · rw [hrec.2.2.2.1]
            simp <;> omega
          · rw [hrec.2.2.2.2]
            simp <;> omega
    · have hskip_cond : 3 < i ∧ d = true := by
        rcases Decidable.em (3 < i ∧ d = true) with h | h
        · exact h
        · exact absurd ((activeIter_iff d i).mpr h) hact
      rw [execStep_skip d exec pre i s hskip_cond.1 hskip_cond.2]
      have hcnt0 : (i :: idxs).countP (activeIter d) = idxs.countP (activeIter d) := by
        rw [hcnt]
        simp [hact]
      rw [hcnt0] at hsup ⊢
      exact ih s hto hsup

/-- C4: when the val iterator is exhausted mid-run (it has fewer batches
than the processed iteration count) while the train iterator still has
enough batches, `execute` raises nothing, `_train_only` flips, every
remaining iteration processes a train batch only (val pulls stop at exactly
the number of val batches that existed), and the run reaches aggregation,
where `post_process` skips the val extractors and aggregates the train
extractors. -/
theorem C4_val_exhaustion_is_nonfatal {α β σ γ : Type} (d : Bool)
    (exec : σ → β → σ) (pre : α → β) (agg : σ → γ) (len : Nat) (s : MState α σ)
    (hto : s.trainOnly = false)
    (hsup : (List.range len).countP (activeIter d) ≤ s.trainRem.length)
    (hval : s.valRem.length < (List.range len).countP (activeIter d)) :
    (execute d exec pre len s).2 = none ∧
    (execute d exec pre len s).1.trainOnly = true ∧
    (execute d exec pre len s).1.trainPulled
      = s.trainPulled + (List.range len).countP (activeIter d) ∧
    (execute d exec pre len s).1.valPulled = s.valPulled + s.valRem.length ∧
    post_process agg (execute d exec pre len s).1
      = ((execute d exec pre len s).1.valExts.zip (execute d exec pre len s).1.trainExts).map
          (fun p => (none, agg p.2)) := by
  have h := executeLoop_val_exhaustion d exec pre (List.range len) s hto hsup
  have honly : (execute d exec pre len s).1.trainOnly = true := by
    rw [execute]
    exact h.2.1.mpr hval
  refine ⟨h.1, honly, h.2.2.1, ?_, ?_⟩
  · rw [execute] at honly ⊢
    rw [h.2.2.2.1]
    omega
  · unfold post_process
    rw [honly]
    simp

/-- Witness for C4: debug mode, 5 iterations (4 active), 9 train batches
and only 2 val batches; invocation-counting extractors. -/
theorem C4_val_exhaustion_is_nonfatal_witness :
    (execute true (fun (n : Nat) (_ : Nat) => n + 1) (fun (x : Nat) => x) 5
        ⟨[1, 2, 3, 4, 5, 6, 7, 8, 9], [100, 101], false, [0], [0], 0, 0⟩).2 = none ∧
    (execute true (fun (n : Nat) (_ : Nat) => n + 1) (fun (x : Nat) => x) 5
        ⟨[1, 2, 3, 4, 5, 6, 7, 8, 9], [100, 101], false, [0], [0], 0, 0⟩).1.trainOnly = true ∧
    (execute true (fun (n : Nat) (_ : Nat) => n + 1) (fun (x : Nat) => x) 5
        ⟨[1, 2, 3, 4, 5, 6, 7, 8, 9], [100, 101], false, [0], [0], 0, 0⟩).1.trainPulled = 0 + 4 ∧
    (execute true (fun (n : Nat) (_ : Nat) => n + 1) (fun (x : Nat) => x) 5
        ⟨[1, 2, 3, 4, 5, 6, 7, 8, 9], [100, 101], false, [0], [0], 0, 0⟩).1.valPulled = 0 + 2 ∧
    post_process (fun (n : Nat) => n)
        (execute true (fun (n : Nat) (_ : Nat) => n + 1) (fun (x : Nat) => x) 5
          ⟨[1, 2, 3, 4, 5, 6, 7, 8, 9], [100, 101], false, [0], [0], 0, 0⟩).1
      = ((execute true (fun (n : Nat) (_ : Nat) => n + 1) (fun (x : Nat) => x) 5
            ⟨[1, 2, 3, 4, 5, 6, 7, 8, 9], [100, 101], false, [0], [0], 0, 0⟩).1.valExts.zip
          (execute true (fun (n : Nat) (_ : Nat) => n + 1) (fun (x : Nat) => x) 5
            ⟨[1, 2, 3, 4, 5, 6, 7, 8, 9], [100, 101], false, [0], [0], 0, 0⟩).1.trainExts).map
          (fun p => (none, p.2)) := by
  have h := C4_val_exhaustion_is_nonfatal true (fun (n : Nat) (_ : Nat) => n + 1)
    (fun (x : Nat) => x) (fun (n : Nat) => n) 5
    ⟨[1, 2, 3, 4, 5, 6, 7, 8, 9], [100, 101], false, [0], [0], 0, 0⟩
    rfl (by decide) (by decide)
  exact ⟨h.1, h.2.1, by rw [h.2.2.1]; rfl, by rw [h.2.2.2.1]; rfl, h.2.2.2.2⟩

/-- Lookup after `d[k] = v`. -/
theorem PyDict.get?_set {κ ν : Type} [DecidableEq κ] (d : PyDict κ ν) (k a : κ) (v : ν) :
    (d.set k v).get? a = if k = a then some v else d.get? a := by
  induction d with
  | nil =>
    by_cases h : k = a <;> simp [PyDict.set, PyDict.get?, h]
  | cons kv t ih =>
    rcases kv with ⟨k₀, v₀⟩
    by_cases h0 : k₀ = k
    · subst h0
      by_cases h : k₀ = a
      · subst h
        simp [PyDict.set, PyDict.get?]
      · simp [PyDict.set, PyDict.get?, h]
    · by_cases h : k₀ = a
      · subst h
        have hka : ¬ k = k₀ := fun he => h0 he.symm
        simp [PyDict.set, PyDict.get?, h0, hka]
      · simp [PyDict.set, PyDict.get?, h0, h, ih]

/-- A key is found exactly when it occurs in `keys`. -/
theorem PyDict.get?_isSome_iff_mem_keys {κ ν : Type} [DecidableEq κ]
    (d : PyDict κ ν) (a : κ) : (d.get? a).isSome = true ↔ a ∈ d.keys := by
  induction d with
  | nil => simp [PyDict.get?, PyDict.keys]
  | cons kv t ih =>
    rcases kv with ⟨k₀, v₀⟩
    by_cases h : k₀ = a
    · subst h
      simp [PyDict.get?, PyDict.keys]
    · simp [PyDict.get?, PyDict.keys, h, Ne.symm h, ih]

/-- Key set of `fillMissing`. -/
theorem fillMissing_get?_isSome (d : PyDict String Nat) (ks : List String) (a : String) :
    ((fillMissing d ks).get? a).isSome = true ↔ (d.get? a).isSome = true ∨ a ∈ ks := by
  induction ks generalizing d with
  | nil => simp [fillMissing]
  | cons k ks ih =>
    simp only [fillMissing] at ih ⊢
    simp only [List.foldl_cons]
    by_cases hk : (d.get? k).isSome = true
    · rw [if_pos hk]
      rw [ih d]
      constructor
      · rintro (h | h)
        · exact Or.inl h
        · exact Or.inr (by simp [h])
      · rintro (h | h)
        · exact Or.inl h
        · rcases List.mem_cons.mp h with rfl | h2
          · exact Or.inl hk
          · exact Or.inr h2
    · rw [if_neg hk]
      rw [ih (d.set k 0)]
      simp only [PyDict.get?_set]
      by_cases hka : k = a
      · simp [hka]
      · simp [hka]
        constructor
        · rintro (h | h)
          · exact Or.inl h
          · exact Or.inr (Or.inr h)
        · rintro (h | h | h)
          · exact Or.inl h
          · exact absurd h.symm hka
          · exact Or.inr h

/-- `fillMissing` is the identity when nothing is missing. -/
theorem fillMissing_eq_self (d : PyDict String Nat) (ks : List String)
    (h : ∀ k ∈ ks, (d.get? k).isSome = true) : fillMissing d ks = d := by
  induction ks with
  | nil => rfl
  | cons k ks ih =>
    rw [fillMissing, List.foldl_cons, if_pos (h k (by simp))]
    exact ih (fun k' hk' => h k' (by simp [hk']))

/-- `merge_dict_splits` is idempotent: after one merge both splits hold the
union key set, so a second merge adds nothing. -/
theorem merge_dict_splits_idem (h : IRState) :
    merge_dict_splits (merge_dict_splits h) = merge_dict_splits h := by
  rw [merge_dict_splits, merge_dict_splits]
  have htrain : fillMissing (fillMissing h.train h.val.keys)
      (fillMissing h.val h.train.keys).keys = fillMissing h.train h.val.keys := by
    apply fillMissing_eq_self
    intro k hk
    rw [fillMissing_get?_isSome]
    rw [← PyDict.get?_isSome_iff_mem_keys] at hk
    rw [fillMissing_get?_isSome] at hk
    rcases hk with hk | hk
    · exact Or.inr ((PyDict.get?_isSome_iff_mem_keys h.val k).mp hk)
    · exact Or.inl ((PyDict.get?_isSome_iff_mem_keys h.train k).mpr hk)
  have hval : fillMissing (fillMissing h.val h.train.keys)
      (fillMissing h.train h.val.keys).keys = fillMissing h.val h.train.keys := by
    apply fillMissing_eq_self
    intro k hk
    rw [fillMissing_get?_isSome]
    rw [← PyDict.get?_isSome_iff_mem_keys] at hk
    rw [fillMissing_get?_isSome] at hk
    rcases hk with hk | hk
    · exact Or.inr ((PyDict.get?_isSome_iff_mem_keys h.train k).mp hk)
    · exact Or.inl ((PyDict.get?_isSome_iff_mem_keys h.val k).mpr hk)
  simp only [SplitDict.mk.injEq]
  exact ⟨htrain, hval⟩

/-- `renameKey` is idempotent. -/
theorem renameKey_idem (tbl : Nat → Option String) (k : HKey) :
    renameKey tbl (renameKey tbl k) = renameKey tbl k := by
  rcases k with n | s
  · rw [renameKey]
    rcases h : tbl n with _ | s
    · rw [renameKey, h]
    · rfl
  · rfl

/-- `class_id_to_name` is idempotent. -/
theorem class_id_to_name_idem (tbl : Nat → Option String) (d : PyDict HKey Nat) :
    class_id_to_name tbl (class_id_to_name tbl d) = class_id_to_name tbl d := by
  induction d with
  | nil => rfl
  | cons kv t ih =>
    simp only [class_id_to_name, List.map_cons] at ih ⊢
    rw [renameKey_idem, ih]

/-- Reading and writing a `SplitDict` slot. -/
theorem SplitDict.get_set {ν : Type} (h : SplitDict ν) (sp : Split) (v : ν) :
    (h.set sp v).get sp = v := by
  cases sp <;> rfl

/-- Writing the same `SplitDict` slot twice keeps the last write. -/
theorem SplitDict.set_set {ν : Type} (h : SplitDict ν) (sp : Split) (v w : ν) :
    (h.set sp v).set sp w = h.set sp w := by
  cases sp <;> rfl

/-- C6: `aggregate(split)` is idempotent for both modelled extractors —
calling it again with no intervening `update` returns the same output (and
leaves the same state), even though the first call mutates the state
(`merge_dict_splits` for `ImagesResolutions`, key renaming through
`class_id_to_name` for `GetClassDistribution`). -/
theorem C6_aggregate_idempotent :
    (∀ (h : IRState) (split : Split),
        imagesResolutions_aggregate (imagesResolutions_aggregate h split).2 split
          = imagesResolutions_aggregate h split) ∧
    (∀ (s : GCDState) (split : Split),
        gcd_aggregate (gcd_aggregate s split).2 split = gcd_aggregate s split) := by
  constructor
  · intro h split
    simp only [imagesResolutions_aggregate]
    rw [merge_dict_splits_idem]
  · intro s split
    simp only [gcd_aggregate]
    rw [SplitDict.get_set, class_id_to_name_idem, SplitDict.set_set]

/-- Bumping a counter twice adds up. -/
theorem bumpBy_bumpBy (o : Option Nat) (a b : Nat) :
    bumpBy (bumpBy o a) b = bumpBy o (a + b) := by
  rcases o with _ | v
  · by_cases ha : a = 0
    · subst ha
      simp [bumpBy]
    · by_cases hb : b = 0
      · subst hb
        simp [bumpBy, ha]
      · simp [bumpBy, ha, hb] <;> omega
  · simp [bumpBy] <;> omega

/-- Bumping by zero changes nothing. -/
theorem bumpBy_zero (o : Option Nat) : bumpBy o 0 = o := by
  rcases o with _ | v <;> simp [bumpBy]

/-- Reading a modified `SplitDict` slot. -/
theorem SplitDict.get_modify_same {ν : Type} (h : SplitDict ν) (sp : Split) (f : ν → ν) :
    (h.modify sp f).get sp = f (h.get sp) := by
  cases sp <;> rfl

/-- Reading the untouched `SplitDict` slot. -/
theorem SplitDict.get_modify_ne {ν : Type} (h : SplitDict ν) (sp sp' : Split) (f : ν → ν)
    (hne : sp ≠ sp') : (h.modify sp f).get sp' = h.get sp' := by
  cases sp <;> cases sp' <;> first | rfl | exact absurd rfl hne

/-- Effect of one image on one histogram lookup. -/
theorem ir_update_single_get? (h : IRState) (im : PImage) (splt sp : Split) (k : String) :
    ((imagesResolutions_update h ⟨[im], splt⟩).get sp).get? k
      = bumpBy ((h.get sp).get? k) (if (splt, resOf im) = (sp, k) then 1 else 0) := by
  simp only [imagesResolutions_update, List.foldl_cons, List.foldl_nil]
  by_cases hsp : splt = sp
  · subst hsp
    rw [SplitDict.get_modify_same]
    by_cases hk : resOf im = k
    · subst hk
      rcases hres : (h.get splt).get? (resOf im) with _ | v
      · simp [PyDict.get?_set, hres, bumpBy]
      · simp [PyDict.get?_set, hres, bumpBy]
    · rcases hres : (h.get splt).get? (resOf im) with _ | v
      · simp [PyDict.get?_set, hres, hk, bumpBy_zero]
      · simp [PyDict.get?_set, hres, hk, bumpBy_zero]
  · rw [SplitDict.get_modify_ne h splt sp _ hsp]
    have : ¬((splt, resOf im) = (sp, k)) := by
      intro hc
      exact hsp (congrArg Prod.fst hc)
    simp [this, bumpBy_zero]

/-- A batch update is the image-by-image composition of singleton updates. -/
theorem ir_update_cons (h : IRState) (im : PImage) (imgs : List PImage) (splt : Split) :
    imagesResolutions_update h ⟨im :: imgs, splt⟩
      = imagesResolutions_update (imagesResolutions_update h ⟨[im], splt⟩) ⟨imgs, splt⟩ := by
  simp only [imagesResolutions_update, List.foldl_cons, List.foldl_nil]

/-- Effect of one batch on one histogram lookup: the lookup gains one hit
per image of the batch with that resolution, provided the batch is tagged
with that split. -/
theorem ir_update_get? (data : ImBatch) (h : IRState) (sp : Split) (k : String) :
    ((imagesResolutions_update h data).get sp).get? k
      = bumpBy ((h.get sp).get? k)
          ((data.images.map (fun im => (data.split, resOf im))).countP
            (fun oc => decide (oc = (sp, k)))) := by
  rcases data with ⟨imgs, splt⟩
  induction imgs generalizing h with
  | nil =>
    simp only [imagesResolutions_update, List.foldl_nil, List.map_nil, List.countP_nil]
    rw [bumpBy_zero]
  | cons im imgs ih =>
    rw [ir_update_cons]
    rw [ih]
    rw [ir_update_single_get?]
    rw [bumpBy_bumpBy]
    congr 1
    simp only [List.map_cons, List.countP_cons]
    by_cases hc : (splt, resOf im) = (sp, k) <;> simp [hc] <;> omega

/-- Effect of a whole run on one histogram lookup. -/
theorem ir_run_get? (bs : List ImBatch) (h : IRState) (sp : Split) (k : String) :
    ((imagesResolutions_updateRun h bs).get sp).get? k
      = bumpBy ((h.get sp).get? k)
          ((resOccurrences bs).countP (fun oc => decide (oc = (sp, k)))) := by
  induction bs generalizing h with
  | nil =>
    simp only [imagesResolutions_updateRun, List.foldl_nil, resOccurrences,
      List.flatMap_nil, List.countP_nil]
    rw [bumpBy_zero]
  | cons b bs ih =>
    have hrun : imagesResolutions_updateRun h (b :: bs)
        = imagesResolutions_updateRun (imagesResolutions_update h b) bs := by
      simp only [imagesResolutions_updateRun, List.foldl_cons]
    rw [hrun, ih, ir_update_get?, bumpBy_bumpBy]
    congr 1
    simp only [resOccurrences, List.flatMap_cons, List.countP_append]

/-- Writing the same key twice keeps the last value. -/
theorem PyDict.set_override {κ ν : Type} [DecidableEq κ] (d : PyDict κ ν) (k : κ) (a b : ν) :
    (d.set k a).set k b = d.set k b := by
  induction d with
  | nil => simp [PyDict.set]
  | cons kv t ih =>
    rcases kv with ⟨k₀, v₀⟩
    by_cases h : k₀ = k
    · simp [PyDict.set, h]
    · simp [PyDict.set, h, ih]

/-- Writes to distinct keys both already present commute (no appends occur,
so the insertion order is untouched). -/
theorem PyDict.set_comm_of_mem {κ ν : Type} [DecidableEq κ] (d : PyDict κ ν) (k₁ k₂ : κ)
    (v₁ v₂ : ν) (hne : k₁ ≠ k₂)
    (h₁ : (d.get? k₁).isSome = true) (h₂ : (d.get? k₂).isSome = true) :
    (d.set k₁ v₁).set k₂ v₂ = (d.set k₂ v₂).set k₁ v₁ := by
  induction d with
  | nil => simp [PyDict.get?] at h₁
  | cons kv t ih =>
    rcases kv with ⟨k₀, v₀⟩
    by_cases ha : k₀ = k₁
    · subst ha
      simp [PyDict.set, hne, Ne.symm hne]
    · by_cases hb : k₀ = k₂
      · subst hb
        simp [PyDict.set, ha, hne, Ne.symm hne]
      · rw [PyDict.get?] at h₁ h₂
        rw [if_neg ha] at h₁
        rw [if_neg hb] at h₂
        simp [PyDict.set, ha, hb, ih h₁ h₂]

/-- `incr` only ever raises `KeyError`. -/
theorem PyDict.incr_error {κ : Type} [DecidableEq κ] (d : PyDict κ Nat) (k : κ) (n : Nat)
    (e : PyError) (h : d.incr k n = .error e) : e = .keyError := by
  unfold PyDict.incr at h
  rcases hv : d.get? k with _ | v <;> rw [hv] at h
  · exact ((Except.error.injEq _ _).mp h).symm
  · exact absurd h (by simp)

/-- Two histogram increments commute, including their failure behaviour
(`KeyError` exactly when the key is absent, and increments never change the
key set). -/
theorem gcd_applyOne_comm (sp₁ sp₂ : Split) (c₁ c₂ : Nat × Nat) (s : GCDState) :
    applyOneE sp₂ c₂ (gcd_applyOne sp₁ c₁ s) = applyOneE sp₁ c₁ (gcd_applyOne sp₂ c₂ s) := by
  by_cases hsp : sp₁ = sp₂
  · subst hsp
    rcases hv₁ : (s.hist.get sp₁).get? (HKey.id c₁.1) with _ | v₁
    · rcases hv₂ : (s.hist.get sp₁).get? (HKey.id c₂.1) with _ | v₂
      · simp [gcd_applyOne, applyOneE, PyDict.incr, hv₁, hv₂]
      · by_cases hk : HKey.id c₁.1 = HKey.id c₂.1
        · rw [hk] at hv₁
          rw [hv₁] at hv₂
          exact absurd hv₂ (by simp)
        · simp [gcd_applyOne, applyOneE, PyDict.incr, hv₁, hv₂, SplitDict.get_set,
            PyDict.get?_set, Ne.symm hk, hk]
    · rcases hv₂ : (s.hist.get sp₁).get? (HKey.id c₂.1) with _ | v₂
      · by_cases hk : HKey.id c₁.1 = HKey.id c₂.1
        · rw [hk] at hv₁
          rw [hv₁] at hv₂
          exact absurd hv₂.symm (by simp)
        · simp [gcd_applyOne, applyOneE, PyDict.incr, hv₁, hv₂, SplitDict.get_set,
            PyDict.get?_set, Ne.symm hk, hk]
      · by_cases hk : HKey.id c₁.1 = HKey.id c₂.1
        · -- same key updated twice
          rw [hk] at hv₁
          have hv : v₁ = v₂ := by
            rw [hv₁] at hv₂
            exact (Option.some.injEq _ _).mp hv₂
          subst hv
          simp only [gcd_applyOne, applyOneE, PyDict.incr, hv₁, hv₂, SplitDict.get_set,
            PyDict.get?_set, hk, if_pos rfl, SplitDict.set_set, PyDict.set_override,
            SplitDict.modify, SplitDict.get_set]
          have h1 : v₁ + c₁.2 + c₂.2 = v₁ + c₂.2 + c₁.2 := by omega
          have h2 : s.total.get sp₁ + c₁.2 + c₂.2 = s.total.get sp₁ + c₂.2 + c₁.2 := by omega
          simp [h1, h2]
        · -- distinct keys updated
          simp only [gcd_applyOne, applyOneE, PyDict.incr, hv₁, hv₂, SplitDict.get_set,
            PyDict.get?_set, if_neg hk, if_neg (Ne.symm hk), SplitDict.set_set,
            SplitDict.modify, SplitDict.get_set]
          have hset := PyDict.set_comm_of_mem (s.hist.get sp₁) (HKey.id c₁.1) (HKey.id c₂.1)
            (v₁ + c₁.2) (v₂ + c₂.2) hk (by simp [hv₁]) (by simp [hv₂])
          have h2 : s.total.get sp₁ + c₁.2 + c₂.2 = s.total.get sp₁ + c₂.2 + c₁.2 := by omega
          rw [hset, h2]
  · -- different splits: the updates touch disjoint state
    cases sp₁ <;> cases sp₂ <;> try exact absurd rfl hsp
    · rcases h1 : (s.hist.train).incr (HKey.id c₁.1) c₁.2 with e₁ | d₁ <;>
        rcases h2 : (s.hist.val).incr (HKey.id c₂.1) c₂.2 with e₂ | d₂ <;>
        simp_all [gcd_applyOne, applyOneE, SplitDict.get, SplitDict.set, SplitDict.modify]
      rw [PyDict.incr_error _ _ _ _ h1, PyDict.incr_error _ _ _ _ h2]
    · rcases h1 : (s.hist.val).incr (HKey.id c₁.1) c₁.2 with e₁ | d₁ <;>
        rcases h2 : (s.hist.train).incr (HKey.id c₂.1) c₂.2 with e₂ | d₂ <;>
        simp_all [gcd_applyOne, applyOneE, SplitDict.get, SplitDict.set, SplitDict.modify]
      rw [PyDict.incr_error _ _ _ _ h1, PyDict.incr_error _ _ _ _ h2]

/-- An already-raised exception propagates past any further operations. -/
theorem applyOpsE_error (ops : List (Split × (Nat × Nat))) (e : PyError) :
    applyOpsE ops (.error e) = .error e := by
  induction ops with
  | nil => rfl
  | cons oc ops ih =>
    simp only [applyOpsE, List.foldl_cons, applyOneE] at ih ⊢
    exact ih

/-- The contribution loop of one `update` call is the operation fold. -/
theorem gcd_applyContribs_eq (sp : Split) (cs : List (Nat × Nat)) (s : GCDState) :
    gcd_applyContribs sp cs s = applyOpsE (cs.map (fun c => (sp, c))) (.ok s) := by
  induction cs generalizing s with
  | nil => rfl
  | cons c cs ih =>
    rw [gcd_applyContribs]
    simp only [List.map_cons, applyOpsE, List.foldl_cons]
    rcases h : gcd_applyOne sp c s with e | s'
    · rw [show applyOneE sp c (Except.ok s) = .error e by simp [applyOneE, h]]
      exact (applyOpsE_error _ e).symm
    · rw [show applyOneE sp c (Except.ok s) = .ok s' by simp [applyOneE, h]]
      exact ih s'

/-- A whole run is the flattened operation fold. -/
theorem gcd_updateRun_eq (bs : List SegBatch) (s : GCDState) :
    gcd_updateRun s bs = applyOpsE (opsOf bs) (.ok s) := by
  induction bs generalizing s with
  | nil => rfl
  | cons b bs ih =>
    rw [gcd_updateRun]
    have hops : opsOf (b :: bs)
        = (contribsOf b).map (fun c => (b.split, c)) ++ opsOf bs := by
      simp [opsOf]
    rw [hops]
    have happ : ∀ (o₁ o₂ : List (Split × (Nat × Nat))) (es : Except PyError GCDState),
        applyOpsE (o₁ ++ o₂) es = applyOpsE o₂ (applyOpsE o₁ es) := by
      intro o₁ o₂ es
      simp [applyOpsE, List.foldl_append]
    rw [happ]
    rcases h : gcd_update s b with e | s'
    · rw [gcd_update, gcd_applyContribs_eq] at h
      rw [h, applyOpsE_error]
    · rw [gcd_update, gcd_applyContribs_eq] at h
      rw [h]
      exact ih s'

/-- `applyOneE` operations commute at the `Except` level. -/
theorem applyOneE_comm (sp₁ sp₂ : Split) (c₁ c₂ : Nat × Nat)
    (es : Except PyError GCDState) :
    applyOneE sp₂ c₂ (applyOneE sp₁ c₁ es) = applyOneE sp₁ c₁ (applyOneE sp₂ c₂ es) := by
  rcases es with e | s
  · rfl
  · exact gcd_applyOne_comm sp₁ sp₂ c₁ c₂ s

/-- The operation fold only depends on the multiset of operations. -/
theorem applyOpsE_perm (ops₁ ops₂ : List (Split × (Nat × Nat))) (hp : ops₁.Perm ops₂) :
    ∀ es : Except PyError GCDState, applyOpsE ops₁ es = applyOpsE ops₂ es := by
  induction hp with
  | nil => intro es; rfl
  | cons x _ ih =>
    intro es
    simp only [applyOpsE, List.foldl_cons]
    exact ih _
  | swap x y l =>
    intro es
    simp only [applyOpsE, List.foldl_cons]
    rw [applyOneE_comm]
  | trans _ _ ih₁ ih₂ =>
    intro es
    exact (ih₁ es).trans (ih₂ es)

/-- Lookup in a `fillMissing` result: present values are untouched; absent
keys listed in `ks` read zero. -/
theorem fillMissing_get? (d : PyDict String Nat) (ks : List String) (a : String) :
    (fillMissing d ks).get? a
      = if (d.get? a).isSome then d.get? a else (if a ∈ ks then some 0 else none) := by
  induction ks generalizing d with
  | nil =>
    by_cases h : (d.get? a).isSome
    · simp [fillMissing, h]
    · simp [fillMissing, h]
      exact Option.not_isSome_iff_eq_none.mp h
  | cons k ks ih =>
    simp only [fillMissing, List.foldl_cons] at ih ⊢
    by_cases hk : (d.get? k).isSome = true
    · rw [if_pos hk, ih d]
      by_cases ha : (d.get? a).isSome
      · simp [ha]
      · by_cases hmem : a ∈ ks
        · simp [hmem, ha]
        · have hak : a ≠ k := by
            intro he
            rw [he] at ha
            exact ha hk
          simp [hmem, ha, hak]
    · rw [if_neg hk, ih (d.set k 0)]
      by_cases hka : k = a
      · subst hka
        have hnone : d.get? k = none := Option.not_isSome_iff_eq_none.mp hk
        simp [PyDict.get?_set, hnone]
      · simp only [PyDict.get?_set, if_neg hka]
        by_cases ha : (d.get? a).isSome
        · simp [ha]
        · have hnone : d.get? a = none := Option.not_isSome_iff_eq_none.mp ha
          simp [hnone, hka, Ne.symm hka]

/-- Histograms with equal lookups still have equal lookups after
`merge_dict_splits` (the fill loop reads only presence and values). -/
theorem merge_get?_congr (hA hB : IRState)
    (hh : ∀ (sp : Split) (k : String), (hA.get sp).get? k = (hB.get sp).get? k) :
    ∀ (sp : Split) (k : String),
      ((merge_dict_splits hA).get sp).get? k = ((merge_dict_splits hB).get sp).get? k := by
  have htr : ∀ k, hA.train.get? k = hB.train.get? k := fun k => hh .train k
  have hvl : ∀ k, hA.val.get? k = hB.val.get? k := fun k => hh .val k
  intro sp k
  cases sp
  · show (fillMissing hA.train hA.val.keys).get? k = (fillMissing hB.train hB.val.keys).get? k
    rw [fillMissing_get?, fillMissing_get?, htr k]
    have hm : (k ∈ hA.val.keys) ↔ (k ∈ hB.val.keys) := by
      rw [← PyDict.get?_isSome_iff_mem_keys, ← PyDict.get?_isSome_iff_mem_keys, hvl k]
    by_cases hc : (hB.train.get? k).isSome = true
    · rw [if_pos hc, if_pos hc]
    · rw [if_neg hc, if_neg hc]
      by_cases hmem : k ∈ hA.val.keys
      · rw [if_pos hmem, if_pos (hm.mp hmem)]
      · rw [if_neg hmem, if_neg (fun hc2 => hmem (hm.mpr hc2))]
  · show (fillMissing hA.val hA.train.keys).get? k = (fillMissing hB.val hB.train.keys).get? k
    rw [fillMissing_get?, fillMissing_get?, hvl k]
    have hm : (k ∈ hA.train.keys) ↔ (k ∈ hB.train.keys) := by
      rw [← PyDict.get?_isSome_iff_mem_keys, ← PyDict.get?_isSome_iff_mem_keys, htr k]
    by_cases hc : (hB.val.get? k).isSome = true
    · rw [if_pos hc, if_pos hc]
    · rw [if_neg hc, if_neg hc]
      by_cases hmem : k ∈ hA.train.keys
      · rw [if_pos hmem, if_pos (hm.mp hmem)]
      · rw [if_neg hmem, if_neg (fun hc2 => hmem (hm.mpr hc2))]

/-- C7 counterexample: two one-image train batches with distinct
resolutions, updated in the two possible orders, give `ImagesResolutions`
histograms whose aggregate output differs — the bins list follows first-seen
insertion order, so it is reversed (the claim requires equal values *and*
bins for every permutation). -/
theorem C7_bins_order_counterexample :
    ([⟨[⟨3, 2, 2⟩], .train⟩, ⟨[⟨3, 3, 3⟩], .train⟩] : List ImBatch).Perm
      [⟨[⟨3, 3, 3⟩], .train⟩, ⟨[⟨3, 2, 2⟩], .train⟩] ∧
    (imagesResolutions_aggregate
        (imagesResolutions_updateRun ⟨[], []⟩
          [⟨[⟨3, 2, 2⟩], .train⟩, ⟨[⟨3, 3, 3⟩], .train⟩]) .train).1
      ≠ (imagesResolutions_aggregate
        (imagesResolutions_updateRun ⟨[], []⟩
          [⟨[⟨3, 3, 3⟩], .train⟩, ⟨[⟨3, 2, 2⟩], .train⟩]) .train).1 := by
  constructor
  · exact List.Perm.swap _ _ _
  · decide

/-- C7 (amended): the accumulated histograms are invariant under any
permutation of the `update` calls *as key → count mappings*: for
`ImagesResolutions` every lookup of the per-split histogram — and of the
merged histogram that `aggregate` returns as (values, bins) — is equal for
permuted update sequences, though the insertion *order* of the bins may
differ (see the counterexample); for `GetClassDistribution`, whose key set
is fixed at construction, the state after permuted update runs is
identical, so `aggregate` output (values and bins alike) is identical. -/
theorem C7_update_order_invariance :
    (∀ (bs₁ bs₂ : List ImBatch), bs₁.Perm bs₂ →
      ∀ (h : IRState) (sp : Split) (k : String),
        ((imagesResolutions_updateRun h bs₁).get sp).get? k
          = ((imagesResolutions_updateRun h bs₂).get sp).get? k ∧
        ((merge_dict_splits (imagesResolutions_updateRun h bs₁)).get sp).get? k
          = ((merge_dict_splits (imagesResolutions_updateRun h bs₂)).get sp).get? k) ∧
    (∀ (bs₁ bs₂ : List SegBatch), bs₁.Perm bs₂ → ∀ s : GCDState,
        gcd_updateRun s bs₁ = gcd_updateRun s bs₂ ∧
        (∀ (sp : Split) (s₁ s₂ : GCDState),
          gcd_updateRun s bs₁ = .ok s₁ → gcd_updateRun s bs₂ = .ok s₂ →
          gcd_aggregate s₁ sp = gcd_aggregate s₂ sp)) := by
  constructor
  · intro bs₁ bs₂ hp h sp k
    have hlook : ∀ (sp : Split) (k : String),
        ((imagesResolutions_updateRun h bs₁).get sp).get? k
          = ((imagesResolutions_updateRun h bs₂).get sp).get? k := by
      intro sp k
      have hc : (resOccurrences bs₁).countP (fun oc => decide (oc = (sp, k)))
          = (resOccurrences bs₂).countP (fun oc => decide (oc = (sp, k))) := by
        unfold resOccurrences
        exact (hp.flatMap_right _).countP_eq _
      rw [ir_run_get?, ir_run_get?, hc]
    exact ⟨hlook sp k,
      merge_get?_congr (imagesResolutions_updateRun h bs₁)
        (imagesResolutions_updateRun h bs₂) hlook sp k⟩
  · intro bs₁ bs₂ hp s
    have hrun : gcd_updateRun s bs₁ = gcd_updateRun s bs₂ := by
      rw [gcd_updateRun_eq, gcd_updateRun_eq]
      exact applyOpsE_perm (opsOf bs₁) (opsOf bs₂) (hp.flatMap_right _) (.ok s)
    refine ⟨hrun, ?_⟩
    intro sp s₁ s₂ h₁ h₂
    rw [h₁] at hrun
    rw [h₂] at hrun
    rw [(Except.ok.injEq _ _).mp hrun]

/-- Witness for the amended C7 on a concrete permuted pair for each
extractor. -/
theorem C7_update_order_invariance_witness :
    (((imagesResolutions_updateRun ⟨[], []⟩
          [⟨[⟨3, 2, 2⟩], .train⟩, ⟨[⟨3, 3, 3⟩], .train⟩]).get .train).get? "(2, 2)"
      = ((imagesResolutions_updateRun ⟨[], []⟩
          [⟨[⟨3, 3, 3⟩], .train⟩, ⟨[⟨3, 2, 2⟩], .train⟩]).get .train).get? "(2, 2)") ∧
    gcd_updateRun (gcd_init 2 [] (fun _ => none))
        [⟨[[[⟨0⟩]]], .train⟩, ⟨[[[⟨1⟩], [⟨1⟩]]], .val⟩]
      = gcd_updateRun (gcd_init 2 [] (fun _ => none))
        [⟨[[[⟨1⟩], [⟨1⟩]]], .val⟩, ⟨[[[⟨0⟩]]], .train⟩] := by
  constructor
  · exact (C7_update_order_invariance.1
      [⟨[⟨3, 2, 2⟩], .train⟩, ⟨[⟨3, 3, 3⟩], .train⟩]
      [⟨[⟨3, 3, 3⟩], .train⟩, ⟨[⟨3, 2, 2⟩], .train⟩]
      (List.Perm.swap _ _ _) ⟨[], []⟩ .train "(2, 2)").1
  · exact (C7_update_order_invariance.2
      [⟨[[[⟨0⟩]]], .train⟩, ⟨[[[⟨1⟩], [⟨1⟩]]], .val⟩]
      [⟨[[[⟨1⟩], [⟨1⟩]]], .val⟩, ⟨[[[⟨0⟩]]], .train⟩]
      (List.Perm.swap _ _ _) (gcd_init 2 [] (fun _ => none))).1

end DataGradients
